import Mathlib

/-!
Shallow embedding of the MULTIX two-pass assembler (the canonical v0.9.1
revision) and verification of the frozen claims about it.

JavaScript semantics are modelled explicitly where they matter:
* `JInt := Option Int` models a JS number used by the assembler; `none`
  plays the role of `NaN` (arithmetic propagates it, bitwise use maps it
  to `0` via `ToUint32`, comparisons on it are false).
* string operations are implemented on the underlying character lists so
  that every definition is executable by the kernel.
-/

namespace MSA

/-! ### JS numbers -/

/-- A JS number as used by the assembler: an integer, or `NaN` (`none`). -/
abbrev JInt := Option Int

def jint (n : Int) : JInt := some n

/-- JS `+` (NaN propagates). -/
def jadd : JInt → JInt → JInt
  | some a, some b => some (a + b)
  | _, _ => none

/-- JS `-` (NaN propagates). -/
def jsub : JInt → JInt → JInt
  | some a, some b => some (a - b)
  | _, _ => none

/-- Add an integer constant to a JS number. -/
def jaddI (a : JInt) (n : Int) : JInt := jadd a (some n)

/-- Subtract an integer constant from a JS number. -/
def jsubI (a : JInt) (n : Int) : JInt := jsub a (some n)

/-- Multiply a JS number by an integer constant (NaN propagates). -/
def jmulI : JInt → Int → JInt
  | some a, m => some (a * m)
  | none, _ => none

/-- JS `b <= v` where `v` may be NaN (false on NaN). -/
def jGeI : JInt → Int → Bool
  | some v, b => b ≤ v
  | none, _ => false

/-- JS `v <= b` where `v` may be NaN (false on NaN). -/
def jLeI : JInt → Int → Bool
  | some v, b => v ≤ b
  | none, _ => false

/-- JS `ToUint32`: the 32-bit pattern a bitwise operator sees (NaN ↦ 0). -/
def u32 : JInt → Nat
  | none => 0
  | some v => (v % (4294967296 : Int)).toNat

/-- Decimal rendering of a JS number, `NaN` included. -/
def jstr : JInt → String
  | none => "NaN"
  | some v => toString v

/-! ### Characters and strings

All operations are implemented on `List Char` so concrete evaluation by
`decide`/`rfl` works; `String` wrappers keep the assembler code readable. -/

def apos : Char := Char.ofNat 39

/-- The whitespace characters recognised by JS `\s`, `trim` and our ASCII
sources. -/
def isWs (c : Char) : Bool :=
  c = ' ' || c = '\t' || c = '\n' || c = '\r' || c = '\x0b' || c = '\x0c'

def chars (s : String) : List Char := s.data

def str (l : List Char) : String := ⟨l⟩

/-- Leading-whitespace count, i.e. JS `text.search(/\S|$/)`. -/
def leadingWs (l : List Char) : Nat := (l.takeWhile isWs).length

/-- JS `trim` on a character list. -/
def trimL (l : List Char) : List Char :=
  (((l.dropWhile isWs).reverse).dropWhile isWs).reverse

def strStarts (s p : String) : Bool := (chars p).isPrefixOf (chars s)

def strEnds (s p : String) : Bool := (chars p).reverse.isPrefixOf (chars s).reverse

/-- JS `str.slice(0, -n)`. -/
def strDropRight (s : String) (n : Nat) : String :=
  str ((chars s).take ((chars s).length - n))

def strLower (s : String) : String := str ((chars s).map Char.toLower)

/-- Contiguous-substring test (JS `includes`). -/
def hasInfixL : List Char → List Char → Bool
  | _, [] => true
  | [], _ :: _ => false
  | c :: rest, needle => needle.isPrefixOf (c :: rest) || hasInfixL rest needle

def hasSubstr (hay needle : String) : Bool := hasInfixL (chars hay) (chars needle)

/-- JS `str.replace(/[cs]/g, "")`: drop every character in `cs`. -/
def stripChars (s : String) (cs : List Char) : String :=
  str ((chars s).filter (fun c => !(cs.contains c)))

/-- Split on `\n`, keeping empty pieces (JS `split("\n")`). -/
def splitLinesAux : List Char → List Char → List (List Char)
  | [], acc => [acc.reverse]
  | '\n' :: rest, acc => acc.reverse :: splitLinesAux rest []
  | c :: rest, acc => splitLinesAux rest (c :: acc)

def splitLines (l : List Char) : List (List Char) := splitLinesAux l []

/-- Tokenizer worker: `cur` holds the (reversed) pending token. -/
def splitWsAux : List Char → List Char → List (List Char)
  | [], cur => if cur = [] then [] else [cur.reverse]
  | c :: rest, cur =>
      if isWs c then
        if cur = [] then splitWsAux rest []
        else cur.reverse :: splitWsAux rest []
      else splitWsAux rest (c :: cur)

/-- Split on whitespace runs (JS `split(/\s+/)` on trimmed text). -/
def splitWsChars (l : List Char) : List (List Char) := splitWsAux l []

def splitWs (s : String) : List String := (splitWsChars (chars s)).map str

/-- Truncate at the first `;` (JS `indexOf(';')` + `substring`). -/
def truncSemi (l : List Char) : List Char := l.takeWhile (· ≠ ';')

/-- Remove the earliest `-;` and return what follows it, when present. -/
def dropToClose : List Char → Option (List Char)
  | [] => none
  | '-' :: ';' :: rest => some rest
  | _ :: rest => dropToClose rest

/-- Remove every `;- … -;` region (non-nested, earliest closer wins),
mirroring the regex `/;-(.|[\r\n])*?-;/g`. -/
def removeBCAux : Nat → List Char → List Char
  | 0, l => l
  | _ + 1, [] => []
  | fuel + 1, ';' :: '-' :: rest =>
      match dropToClose rest with
      | some rest2 => removeBCAux fuel rest2
      | none => ';' :: '-' :: rest
  | fuel + 1, c :: rest => c :: removeBCAux fuel rest

def removeBC (l : List Char) : List Char := removeBCAux (l.length + 1) l

/-! ### JS `parseInt` -/

def digitVal (base : Nat) (c : Char) : Option Nat :=
  let v : Option Nat :=
    if '0' ≤ c ∧ c ≤ '9' then some (c.toNat - 48)
    else if 'a' ≤ c ∧ c ≤ 'z' then some (c.toNat - 87)
    else if 'A' ≤ c ∧ c ≤ 'Z' then some (c.toNat - 55)
    else none
  match v with
  | some d => if d < base then some d else none
  | none => none

/-- Parse the maximal digit prefix; `none` when no digit was consumed. -/
def parseDigits (base : Nat) : List Char → Option Nat → Option Nat
  | [], acc => acc
  | c :: rest, acc =>
      match digitVal base c with
      | some d => parseDigits base rest (some ((acc.getD 0) * base + d))
      | none => acc

/-- JS `parseInt(str)` with the radix unspecified (auto `0x` detection). -/
def jsParseIntAny (s : String) : JInt :=
  let l := (chars s).dropWhile isWs
  let (sign, l) : Int × List Char :=
    match l with
    | '-' :: r => (-1, r)
    | '+' :: r => (1, r)
    | _ => (1, l)
  let (base, l) : Nat × List Char :=
    match l with
    | '0' :: 'x' :: r => (16, r)
    | '0' :: 'X' :: r => (16, r)
    | _ => (10, l)
  match parseDigits base l none with
  | some n => some (sign * n)
  | none => none

/-- JS `parseInt(str, 16)`. -/
def jsParseIntHex (s : String) : JInt :=
  let l := (chars s).dropWhile isWs
  let (sign, l) : Int × List Char :=
    match l with
    | '-' :: r => (-1, r)
    | '+' :: r => (1, r)
    | _ => (1, l)
  let l :=
    match l with
    | '0' :: 'x' :: r => r
    | '0' :: 'X' :: r => r
    | _ => l
  match parseDigits 16 l none with
  | some n => some (sign * n)
  | none => none

/-- JS `str.charCodeAt(i)` (NaN when out of range). -/
def charCodeAt (s : String) (i : Nat) : JInt :=
  match (chars s).get? i with
  | some c => some (c.toNat : Int)
  | none => none

/-! ### Symbol tables -/

/-- A JS object used as a string-keyed map; later assignments shadow
earlier ones. -/
abbrev SMap := List (String × JInt)

def mset (m : SMap) (k : String) (v : JInt) : SMap := (k, v) :: m

def mfind (m : SMap) (k : String) : Option JInt := (m.find? (fun p => p.1 = k)).map (·.2)

/-- JS `obj[k] !== undefined` (a stored NaN still counts as present). -/
def mhas (m : SMap) (k : String) : Bool := (mfind m k).isSome

/-- JS `obj[k]` read used in arithmetic: an absent key behaves as NaN. -/
def mget (m : SMap) (k : String) : JInt :=
  match mfind m k with
  | some v => v
  | none => none

/-! ### Registers -/

/-- `RISCV.REGS`: exactly the keys `x0` … `x31`. -/
def regIndex (s : String) : Option Nat :=
  (List.range 32).findSome? (fun i => if s = "x" ++ toString i then some i else none)

def isReg (s : String) : Bool := (regIndex s).isSome

/-! ### The Value Resolver (`Assembler.parseValue`) -/

structure Syms where
  constants : SMap
  labels : SMap

/-- `Assembler.parseValue`, translated line by line from the source.
The argument is `Option String` because JS call sites may pass
`undefined` (`tokens[i]` past the end). -/
def parseValue (sy : Syms) (tok : Option String) : JInt :=
  match tok with
  | none => some 0
  | some str0 =>
    if str0 = "" then some 0
    else
      let (mult, s) : Int × String :=
        if strEnds (strLower str0) "kb" then (1024, strDropRight str0 2)
        else if strEnds (strLower str0) "mb" then (1048576, strDropRight str0 2)
        else (1, str0)
      if mhas sy.constants s then jmulI (mget sy.constants s) mult
      else if mhas sy.labels s then mget sy.labels s
      else if strStarts s "0x" then jmulI (jsParseIntHex s) mult
      else if strStarts s (str [apos]) then jmulI (charCodeAt s 1) mult
      else
        match jsParseIntAny s with
        | some v => some (v * mult)
        | none => some 0

/-! ### Line records and the lexer/preprocessor -/

/-- A Line Record: trimmed text plus the recorded indentation column. -/
structure Line where
  text : String
  indent : Nat
deriving DecidableEq, Repr

/-- Build the Line Record for one raw (block-comment-free) source line:
truncate at the first `;`, discard if blank, otherwise record the trimmed
text and the indentation measured on the pre-trim text. -/
def lineRec (l : List Char) : Option Line :=
  let text := truncSemi l
  if trimL text = [] then none
  else some ⟨str (trimL text), leadingWs text⟩

/-- The preprocessing in `Assembler.compile`: strip `;- … -;` regions,
split into lines, truncate `;` comments, keep non-blank lines. -/
def effectiveLines (source : String) : List Line :=
  (splitLines (removeBC (chars source))).filterMap lineRec

/-! ### Shared syntactic classifiers -/

/-- The comparison operators excluded by the range-loop test. -/
def opsCmp : List String := ["<", ">", "==", "!=", "<=", ">="]

/-- The operators of three-operand arithmetic lines. -/
def opsArith : List String := ["+", "-", "|", "&", "^"]

def tokGet (tokens : List String) (i : Nat) : String := (tokens.get? i).getD ""

/-- `& x4 x1 x2 [step]` test: second token not a comparison operator and at
least four tokens (`isRange` in both passes). -/
def isRangeLine (t0 : String) (tokens : List String) : Bool :=
  t0 = "&" && !(opsCmp.contains (tokGet tokens 2)) && decide (tokens.length ≥ 4)

/-- The `IDENT [--REG]` call-line test shared by both passes. -/
def isCallLine (tokens : List String) : Bool :=
  decide (tokens.length ≥ 2) && strStarts (tokGet tokens 1) "[--"

/-- `/^[a-zA-Z_]\w*$/`. -/
def matchesIdent (s : String) : Bool :=
  match chars s with
  | [] => false
  | c :: rest => (c.isAlpha || c = '_') && rest.all (fun d => d.isAlphanum || d = '_')

/-- Range-loop step: `tokens[4] ? parseInt(tokens[4]) : 1`. -/
def stepOf (tokens : List String) : JInt :=
  match tokens.get? 4 with
  | some t => jsParseIntAny t
  | none => some 1

/-! ### Block frames -/

inductive BKind
  | wh    -- 'while'
  | rg    -- 'range'
  | cond  -- 'if'
deriving DecidableEq, Repr

/-- A Block Frame as pushed by either pass. `reg`/`step` are only
meaningful for range frames (the JS objects simply omit them otherwise;
we default them identically in both passes). -/
structure Frame where
  kind : BKind
  indent : Nat
  startLbl : String
  endLbl : String
  reg : String
  step : JInt
deriving DecidableEq, Repr

def bStart (n : Nat) : String := "_B_START_" ++ toString n

def bEnd (n : Nat) : String := "_B_END_" ++ toString n

/-! ### Pass 1 (`Assembler.pass1`) -/

structure P1State where
  pc : JInt
  inCode : Bool
  blockStack : List Frame
  labels : SMap
  constants : SMap
  origin : JInt
  blockCounter : Nat
deriving Repr

def initP1 : P1State :=
  { pc := some 0, inCode := false, blockStack := [], labels := [],
    constants := [], origin := some 0, blockCounter := 0 }

/-- The dedent pop loop at the top of pass 1's line handler: pop every
frame whose opener indent is ≥ the line's indent, adding 4 bytes for a
`while` closer and 8 for a `range` closer (an `if` closer adds nothing). -/
def pass1Pops : List Frame → JInt → Nat → List Frame × JInt
  | [], pc, _ => ([], pc)
  | b :: rest, pc, ind =>
      if ind ≤ b.indent then
        let pc :=
          match b.kind with
          | .wh => jaddI pc 4
          | .rg => jaddI pc 8
          | .cond => pc
        pass1Pops rest pc ind
      else (b :: rest, pc)

/-- The body of pass 1's line handler after the dedent pop loop. -/
def pass1Core (s : P1State) (ln : Line) : P1State :=
  let line := ln.text
  let tokens := splitWs line
  let indent := ln.indent
  if strStarts line ":" then
    match tokens.get? 1 with
    | some valStr =>
        let v := parseValue ⟨s.constants, s.labels⟩ (some valStr)
        { s with inCode := true, origin := v, pc := v, labels := mset s.labels ":" v }
    | none => { s with inCode := true, labels := mset s.labels ":" s.pc }
  else if strEnds line ":" then
    { s with inCode := true, labels := mset s.labels (strDropRight line 1) s.pc }
  else if !s.inCode then
    let cv := parseValue ⟨s.constants, s.labels⟩ (tokens.get? 1)
    { s with constants := mset s.constants (tokGet tokens 0) cv }
  else
    let t0 := tokGet tokens 0
    if t0 = "_" then { s with pc := jaddI s.pc 4 }
    else if t0 = "=" then { s with pc := jaddI s.pc 12 }
    else if isCallLine tokens then { s with pc := jaddI s.pc 20 }
    else if t0 = "." || t0 = ".." then { s with pc := jaddI s.pc 4 }
    else if t0 = "&" || t0 = "?" then
      let n := s.blockCounter + 1
      if isRangeLine t0 tokens then
        { s with blockCounter := n,
                 labels := mset s.labels (bStart n) (jaddI s.pc 4),
                 blockStack :=
                   ⟨.rg, indent, bStart n, bEnd n, tokGet tokens 1, stepOf tokens⟩ :: s.blockStack,
                 pc := jaddI s.pc 8 }
      else
        { s with blockCounter := n,
                 labels := if t0 = "&" then mset s.labels (bStart n) s.pc else s.labels,
                 blockStack :=
                   ⟨if t0 = "&" then .wh else .cond, indent, bStart n, bEnd n, "", some 1⟩
                     :: s.blockStack,
                 pc := jaddI s.pc 4 }
    else if strStarts t0 "[" then
      { s with pc := jaddI s.pc (if strStarts t0 "[--" then 8 else 4) }
    else if isReg t0 then
      match tokens.get? 1 with
      | some t1 =>
          if strStarts t1 "[" then
            { s with pc := jaddI s.pc (if hasSubstr t1 "++" then 8 else 4) }
          else if decide (tokens.length > 2) && opsArith.contains (tokGet tokens 2) then
            { s with pc := jaddI s.pc 4 }
          else { s with pc := jaddI s.pc 4 }
      | none => { s with pc := jaddI s.pc 4 }
    else if mhas s.labels t0 || matchesIdent t0 then { s with pc := jaddI s.pc 4 }
    else s

/-- One iteration of pass 1's line loop: the dedent pop loop followed by
the line body. -/
def pass1Line (s : P1State) (ln : Line) : P1State :=
  let popped := pass1Pops s.blockStack s.pc ln.indent
  pass1Core { s with blockStack := popped.1, pc := popped.2 } ln

/-- The end-of-input pop loop of pass 1: each remaining frame adds its
closing contribution (`8` for range, `4` otherwise — note the source
makes no special case for `if` here) and records its end label at the
resulting pc. -/
def pass1EofAux : List Frame → JInt → SMap → JInt × SMap
  | [], pc, labels => (pc, labels)
  | b :: rest, pc, labels =>
      let pc := jaddI pc (if b.kind = .rg then 8 else 4)
      pass1EofAux rest pc (mset labels b.endLbl pc)

def pass1Main (L : List Line) : P1State := L.foldl pass1Line initP1

/-- Full pass 1: the line loop followed by the end-of-input pop loop. -/
def pass1Run (L : List Line) : P1State :=
  let s := pass1Main L
  let fin := pass1EofAux s.blockStack s.pc s.labels
  { s with pc := fin.1, labels := fin.2 }

/-! ### Errors

The only `throw` in the source is `parseReg`'s `Unknown register: …`.
Reading a property of `undefined` (a missing token, or the missing loop
frame of a stray break/continue) raises a JS `TypeError`; we model it as
`undefRead` with the property name being read. -/

inductive AErr
  | unknownRegister (tok : String)
  | undefRead (fld : String)
deriving DecidableEq, Repr

/-- The diagnostic text carried by an error. -/
def AErr.message : AErr → String
  | .unknownRegister t => "Unknown register: " ++ t
  | .undefRead f => "Cannot read properties of undefined (reading " ++ f ++ ")"

/-- `Assembler.parseReg`; a JS call site may pass `undefined`. -/
def parseReg : Option String → Except AErr Nat
  | some sreg =>
      match regIndex sreg with
      | some i => .ok i
      | none => .error (.unknownRegister sreg)
  | none => .error (.unknownRegister "undefined")

/-! ### The encoder (`pushWord`, `emitR` … `emitJ`)

Words are the 32-bit patterns the JS bitwise chain produces, as naturals
below `2^32`; `bitf m lo w` extracts bits `lo … lo+w-1`, which is what
`(imm >> lo) & (2^w - 1)` computes on the `ToUint32`/`ToInt32` pattern. -/

def bitf (m lo w : Nat) : Nat := m / 2 ^ lo % 2 ^ w

def wordR (op f3 f7 rd rs1 rs2 : Nat) : Nat :=
  f7 <<< 25 ||| rs2 <<< 20 ||| rs1 <<< 15 ||| f3 <<< 12 ||| rd <<< 7 ||| op

def wordI (op f3 rd rs1 : Nat) (imm : JInt) : Nat :=
  bitf (u32 imm) 0 12 <<< 20 ||| rs1 <<< 15 ||| f3 <<< 12 ||| rd <<< 7 ||| op

def wordS (op f3 rs1 rs2 : Nat) (imm : JInt) : Nat :=
  bitf (u32 imm) 5 7 <<< 25 ||| rs2 <<< 20 ||| rs1 <<< 15 ||| f3 <<< 12 |||
    bitf (u32 imm) 0 5 <<< 7 ||| op

def wordU (op rd imm : Nat) : Nat := imm <<< 12 ||| rd <<< 7 ||| op

def wordB (op f3 rs1 rs2 : Nat) (imm : JInt) : Nat :=
  let m := u32 imm
  bitf m 12 1 <<< 31 ||| bitf m 5 6 <<< 25 ||| rs2 <<< 20 ||| rs1 <<< 15 |||
    f3 <<< 12 ||| bitf m 1 4 <<< 8 ||| bitf m 11 1 <<< 7 ||| op

def wordJ (op rd : Nat) (imm : JInt) : Nat :=
  let m := u32 imm
  bitf m 20 1 <<< 31 ||| bitf m 1 10 <<< 21 ||| bitf m 11 1 <<< 20 |||
    bitf m 12 8 <<< 12 ||| rd <<< 7 ||| op

/-- The four little-endian bytes of a 32-bit word (`pushWord`). -/
def wordBytes (w : Nat) : List Nat :=
  [w % 256, w / 2 ^ 8 % 256, w / 2 ^ 16 % 256, w / 2 ^ 24 % 256]

/-! ### Pass 2 (`Assembler.pass2`) -/

structure P2State where
  pc : JInt
  inCode : Bool
  blockStack : List Frame
  bCounter : Nat
  code : List Nat
  asmTrace : List String
deriving Repr, DecidableEq

def initP2 (origin : JInt) : P2State :=
  { pc := origin, inCode := false, blockStack := [], bCounter := 0,
    code := [], asmTrace := [] }

def emitTrace (s : P2State) (t : String) : P2State :=
  { s with asmTrace := s.asmTrace ++ [t] }

/-- `if(asm) this.emitTrace("  " + asm)`. -/
def traceIf (s : P2State) (asm : String) : P2State :=
  if asm = "" then s else emitTrace s ("  " ++ asm)

def pushWord (s : P2State) (w : Nat) : P2State :=
  { s with code := s.code ++ wordBytes w }

def emitR (s : P2State) (op f3 f7 rd rs1 rs2 : Nat) (asm : String) : P2State :=
  traceIf (pushWord s (wordR op f3 f7 rd rs1 rs2)) asm

def emitI (s : P2State) (op f3 rd rs1 : Nat) (imm : JInt) (asm : String) : P2State :=
  traceIf (pushWord s (wordI op f3 rd rs1 imm)) asm

def emitS (s : P2State) (op f3 rs1 rs2 : Nat) (imm : JInt) (asm : String) : P2State :=
  traceIf (pushWord s (wordS op f3 rs1 rs2 imm)) asm

def emitU (s : P2State) (op rd imm : Nat) (asm : String) : P2State :=
  traceIf (pushWord s (wordU op rd imm)) asm

def emitB (s : P2State) (op f3 rs1 rs2 : Nat) (imm : JInt) (asm : String) : P2State :=
  traceIf (pushWord s (wordB op f3 rs1 rs2 imm)) asm

def emitJ (s : P2State) (op rd : Nat) (imm : JInt) (asm : String) : P2State :=
  traceIf (pushWord s (wordJ op rd imm)) asm

def natHex (n : Nat) : String := str (Nat.toDigits 16 n)

def jhex : JInt → String
  | none => "NaN"
  | some v => if v < 0 then "-" ++ natHex v.natAbs else natHex v.toNat

/-- `Assembler.emitLoadConst`: one add-immediate from `x0` for values in
the signed 12-bit range, otherwise one LUI of the high 20 bits. -/
def emitLoadConst (s : P2State) (rd : Nat) (val : JInt) : P2State :=
  if jGeI val (-2048) && jLeI val 2047 then
    emitI s 0x13 0 rd 0 val ("LI x" ++ toString rd ++ ", " ++ jstr val)
  else
    let uimm := bitf (u32 val) 12 20
    emitU s 0x37 rd uimm ("LUI x" ++ toString rd ++ ", 0x" ++ natHex uimm)

/-- The symbol tables and origin with which pass 2 re-walks the lines. -/
structure Env where
  labels : SMap
  constants : SMap

/-- Pass 2's dedent pop loop: a `while` closer emits the loop-back jump, a
`range` closer emits step-add plus loop-back, an `if` closer emits
nothing; every closer appends the end-of-block trace marker. -/
def pass2PopsAux (env : Env) (ind : Nat) : List Frame → P2State → Except AErr P2State
  | [], s => .ok { s with blockStack := [] }
  | b :: rest, s =>
      if ind ≤ b.indent then
        match b.kind with
        | .wh =>
            let offset := jsub (mget env.labels b.startLbl) s.pc
            let s := emitJ s 0x6F 0 offset ("JAL x0, " ++ jstr offset ++ " (Loop Back)")
            let s := { s with pc := jaddI s.pc 4 }
            pass2PopsAux env ind rest (emitTrace s ("; --- End of Block " ++ b.endLbl ++ " ---"))
        | .rg =>
            match parseReg (some b.reg) with
            | .error e => .error e
            | .ok reg =>
                let s := emitI s 0x13 0 reg reg b.step
                  ("ADDI x" ++ toString reg ++ ", x" ++ toString reg ++ ", " ++ jstr b.step)
                let s := { s with pc := jaddI s.pc 4 }
                let offset := jsub (mget env.labels b.startLbl) s.pc
                let s := emitJ s 0x6F 0 offset ("JAL x0, " ++ jstr offset ++ " (Range Next)")
                let s := { s with pc := jaddI s.pc 4 }
                pass2PopsAux env ind rest (emitTrace s ("; --- End of Block " ++ b.endLbl ++ " ---"))
        | .cond =>
            pass2PopsAux env ind rest (emitTrace s ("; --- End of Block " ++ b.endLbl ++ " ---"))
      else .ok { s with blockStack := b :: rest }

/-- Pass 2's end-of-input pop loop (`if` frames emit nothing and add no
bytes, unlike pass 1's end-of-input loop). -/
def pass2EofAux (env : Env) : List Frame → P2State → Except AErr P2State
  | [], s => .ok { s with blockStack := [] }
  | b :: rest, s =>
      match b.kind with
      | .wh =>
          let offset := jsub (mget env.labels b.startLbl) s.pc
          let s := emitJ s 0x6F 0 offset ("JAL x0, " ++ jstr offset ++ " (Loop Back)")
          let s := { s with pc := jaddI s.pc 4 }
          pass2EofAux env rest (emitTrace s ("; --- End of Block " ++ b.endLbl ++ " ---"))
      | .rg =>
          match parseReg (some b.reg) with
          | .error e => .error e
          | .ok reg =>
              let s := emitI s 0x13 0 reg reg b.step
                ("ADDI x" ++ toString reg ++ ", x" ++ toString reg ++ ", " ++ jstr b.step)
              let s := { s with pc := jaddI s.pc 4 }
              let offset := jsub (mget env.labels b.startLbl) s.pc
              let s := emitJ s 0x6F 0 offset ("JAL x0, " ++ jstr offset ++ " (Range Next)")
              let s := { s with pc := jaddI s.pc 4 }
              pass2EofAux env rest (emitTrace s ("; --- End of Block " ++ b.endLbl ++ " ---"))
      | .cond =>
          pass2EofAux env rest (emitTrace s ("; --- End of Block " ++ b.endLbl ++ " ---"))

/-- The tail of pass 2's line handler, from the call-pattern check down.
It is reached directly for most lines, and by fall-through from the `=`
handler when the operand lacks `++` (the source has no `else` there). -/
def pass2Rest (env : Env) (tokens : List String) (t0 : String) (indent : Nat)
    (s : P2State) : Except AErr P2State :=
  if isCallLine tokens then
    let target := t0
    match parseReg (some (stripChars (tokGet tokens 1) ['[', ']', '-'])) with
    | .error e => .error e
    | .ok reg =>
        let s := emitU s 0x17 1 0 "AUIPC x1, 0"
        let s := emitI s 0x13 0 1 1 (some 20) "ADDI x1, x1, 20"
        let s := emitI s 0x13 0 reg reg (some (-8))
          ("ADDI x" ++ toString reg ++ ", x" ++ toString reg ++ ", -8")
        let s := emitS s 0x23 3 reg 1 (some 0) ("SD x1, 0(x" ++ toString reg ++ ")")
        let offset := jsubI (jsub (mget env.labels target) s.pc) 16
        let s := emitJ s 0x6F 0 offset ("JAL x0, " ++ target ++ " (" ++ jstr offset ++ ")")
        .ok { s with pc := jaddI s.pc 20 }
  else if t0 = "." || t0 = ".." then
    match s.blockStack.find? (fun b => b.kind = .wh || b.kind = .rg) with
    | none => .error (.undefRead (if t0 = "." then "end" else "start"))
    | some b =>
        let targetLabel := if t0 = "." then b.endLbl else b.startLbl
        let offset := jsub (mget env.labels targetLabel) s.pc
        let s := emitJ s 0x6F 0 offset
          ("JAL x0, " ++ jstr offset ++ " (" ++ (if t0 = "." then "break" else "continue") ++ ")")
        .ok { s with pc := jaddI s.pc 4 }
  else if t0 = "&" || t0 = "?" then
    let n := s.bCounter + 1
    let s := { s with bCounter := n }
    if isRangeLine t0 tokens then
      match parseReg (tokens.get? 1) with
      | .error e => .error e
      | .ok r1 =>
          match parseReg (tokens.get? 2) with
          | .error e => .error e
          | .ok r2 =>
              match parseReg (tokens.get? 3) with
              | .error e => .error e
              | .ok r3 =>
                  let s := { s with blockStack :=
                    ⟨.rg, indent, bStart n, bEnd n, tokGet tokens 1, stepOf tokens⟩
                      :: s.blockStack }
                  let s := emitI s 0x13 0 r1 r2 (some 0)
                    ("MV x" ++ toString r1 ++ ", x" ++ toString r2 ++ " (Init Iterator)")
                  let s := { s with pc := jaddI s.pc 4 }
                  let offset := jsub (mget env.labels (bEnd n)) s.pc
                  let s := emitB s 0x63 5 r1 r3 offset
                    ("BGE x" ++ toString r1 ++ ", x" ++ toString r3 ++ ", END_RANGE")
                  .ok { s with pc := jaddI s.pc 4 }
    else
      let s := { s with blockStack :=
        ⟨if t0 = "&" then .wh else .cond, indent, bStart n, bEnd n, "", some 1⟩
          :: s.blockStack }
      match parseReg (tokens.get? 1) with
      | .error e => .error e
      | .ok rs1 =>
          let op := tokGet tokens 2
          match parseReg (tokens.get? 3) with
          | .error e => .error e
          | .ok rs2 =>
              let offset := jsub (mget env.labels (bEnd n)) s.pc
              let s :=
                if op = "<" then
                  emitB s 0x63 5 rs1 rs2 offset
                    ("BGE x" ++ toString rs1 ++ ", x" ++ toString rs2 ++ ", END_BLOCK")
                else if op = ">=" then
                  emitB s 0x63 4 rs1 rs2 offset
                    ("BLT x" ++ toString rs1 ++ ", x" ++ toString rs2 ++ ", END_BLOCK")
                else if op = "==" then
                  emitB s 0x63 1 rs1 rs2 offset
                    ("BNE x" ++ toString rs1 ++ ", x" ++ toString rs2 ++ ", END_BLOCK")
                else if op = "!=" then
                  emitB s 0x63 0 rs1 rs2 offset
                    ("BEQ x" ++ toString rs1 ++ ", x" ++ toString rs2 ++ ", END_BLOCK")
                else s
              .ok { s with pc := jaddI s.pc 4 }
  else if strStarts t0 "[" then
    match parseReg (tokens.get? 1) with
    | .error e => .error e
    | .ok srcReg =>
        if strStarts t0 "[--" then
          match parseReg (some (stripChars t0 ['[', ']', '-'])) with
          | .error e => .error e
          | .ok reg =>
              let s := emitI s 0x13 0 reg reg (some (-8))
                ("ADDI x" ++ toString reg ++ ", x" ++ toString reg ++ ", -8")
              let s := emitS s 0x23 3 reg srcReg (some 0)
                ("SD x" ++ toString srcReg ++ ", 0(x" ++ toString reg ++ ")")
              .ok { s with pc := jaddI s.pc 8 }
        else
          match parseReg (some (stripChars t0 ['[', ']'])) with
          | .error e => .error e
          | .ok reg =>
              let s := emitS s 0x23 3 reg srcReg (some 0)
                ("SD x" ++ toString srcReg ++ ", 0(x" ++ toString reg ++ ")")
              .ok { s with pc := jaddI s.pc 4 }
  else if isReg t0 then
    let rd := (regIndex t0).getD 0
    match tokens.get? 1 with
    | none => .error (.undefRead "startsWith")
    | some t1 =>
        if strStarts t1 "[" then
          if hasSubstr t1 "++" then
            match parseReg (some (stripChars t1 ['[', ']', '+'])) with
            | .error e => .error e
            | .ok reg =>
                let s := emitI s 0x03 3 rd reg (some 0)
                  ("LD x" ++ toString rd ++ ", 0(x" ++ toString reg ++ ")")
                let s := emitI s 0x13 0 reg reg (some 8)
                  ("ADDI x" ++ toString reg ++ ", x" ++ toString reg ++ ", 8")
                .ok { s with pc := jaddI s.pc 8 }
          else
            match parseReg (some (stripChars t1 ['[', ']'])) with
            | .error e => .error e
            | .ok reg =>
                let s := emitI s 0x03 3 rd reg (some 0)
                  ("LD x" ++ toString rd ++ ", 0(x" ++ toString reg ++ ")")
                .ok { s with pc := jaddI s.pc 4 }
        else if decide (tokens.length > 2) && opsArith.contains (tokGet tokens 2) then
          if isReg t1 then
            let rs1 := (regIndex t1).getD 0
            let s :=
              if isReg (tokGet tokens 3) then
                let rs2 := (regIndex (tokGet tokens 3)).getD 0
                emitR s 0x33 0 0 rd rs1 rs2
                  ("ADD x" ++ toString rd ++ ", x" ++ toString rs1 ++ ", x" ++ toString rs2)
              else
                let iv := parseValue ⟨env.constants, env.labels⟩ (tokens.get? 3)
                emitI s 0x13 0 rd rs1 iv
                  ("ADDI x" ++ toString rd ++ ", x" ++ toString rs1 ++ ", " ++ jstr iv)
            .ok { s with pc := jaddI s.pc 4 }
          else
            let v1 := parseValue ⟨env.constants, env.labels⟩ (some t1)
            let v2 := parseValue ⟨env.constants, env.labels⟩ (tokens.get? 3)
            let s := emitLoadConst s rd (jadd v1 v2)
            .ok { s with pc := jaddI s.pc 4 }
        else if isReg t1 then
          let rs := (regIndex t1).getD 0
          let s := emitI s 0x13 0 rd rs (some 0)
            ("MV x" ++ toString rd ++ ", x" ++ toString rs)
          .ok { s with pc := jaddI s.pc 4 }
        else
          let s := emitLoadConst s rd (parseValue ⟨env.constants, env.labels⟩ (some t1))
          .ok { s with pc := jaddI s.pc 4 }
  else if mhas env.labels t0 then
    let offset := jsub (mget env.labels t0) s.pc
    let s := emitJ s 0x6F 0 offset ("JAL x0, " ++ t0 ++ " (" ++ jstr offset ++ ")")
    .ok { s with pc := jaddI s.pc 4 }
  else .ok s

/-- The body of pass 2's line handler after the dedent pop loop. -/
def pass2Core (env : Env) (s : P2State) (ln : Line) : Except AErr P2State :=
  let line := ln.text
  let tokens := splitWs line
  let indent := ln.indent
  if strStarts line ":" || strEnds line ":" then
    let s := { s with inCode := true }
    let s :=
      if strStarts line ":" then
        emitTrace s ("\n; " ++ line ++ " (Origin: 0x" ++ jhex s.pc ++ ")")
      else s
    .ok s
  else if !s.inCode then .ok s
  else
    let s := emitTrace s ("\n; " ++ line)
    let t0 := tokGet tokens 0
    if t0 = "_" then
      let s := emitJ s 0x6F 0 (some 0) "JAL x0, 0 (Halt)"
      .ok { s with pc := jaddI s.pc 4 }
    else if t0 = "=" then
      match tokens.get? 1 with
      | none => .error (.undefRead "includes")
      | some memToken =>
          if hasSubstr memToken "++" then
            match parseReg (some (stripChars memToken ['[', ']', '+'])) with
            | .error e => .error e
            | .ok reg =>
                let s := emitI s 0x03 3 1 reg (some 0)
                  ("LD x1, 0(x" ++ toString reg ++ ")")
                let s := emitI s 0x13 0 reg reg (some 8)
                  ("ADDI x" ++ toString reg ++ ", x" ++ toString reg ++ ", 8")
                let s := emitI s 0x67 0 0 1 (some 0) "JALR x0, 0(x1)"
                .ok { s with pc := jaddI s.pc 12 }
          else pass2Rest env tokens t0 indent s
    else pass2Rest env tokens t0 indent s

/-- One iteration of pass 2's line loop: the dedent pop loop followed by
the line body. -/
def pass2Line (env : Env) (s : P2State) (ln : Line) : Except AErr P2State :=
  match pass2PopsAux env ln.indent s.blockStack s with
  | .error e => .error e
  | .ok s => pass2Core env s ln

def pass2Go (env : Env) : P2State → List Line → Except AErr P2State
  | s, [] => .ok s
  | s, l :: rest =>
      match pass2Line env s l with
      | .error e => .error e
      | .ok s2 => pass2Go env s2 rest

/-- Full pass 2: the line loop followed by the end-of-input pop loop. -/
def pass2Full (env : Env) (origin : JInt) (L : List Line) : Except AErr P2State :=
  match pass2Go env (initP2 origin) L with
  | .error e => .error e
  | .ok s => pass2EofAux env s.blockStack { s with blockStack := [] }

/-- Both passes run on the preprocessed lines of a source, as
`Assembler.compile` does after `reset`. -/
def pass2Of (source : String) : Except AErr P2State :=
  let L := effectiveLines source
  let s1 := pass1Run L
  pass2Full ⟨s1.labels, s1.constants⟩ s1.origin L

/-- `Assembler.compile`: on success the caller receives the byte vector
(and the trace is printed); on any error the call returns `null` and the
caller receives nothing. -/
def compile (source : String) : Option (List Nat × List String) :=
  match pass2Of source with
  | .ok s => some (s.code, s.asmTrace)
  | .error _ => none

/-! ## Claim theorems -/

/-- C8: compiling the two-line source `: 0` + `_` succeeds and produces
exactly the four bytes `6F 00 00 00` — one jump-and-link word with offset
0 and link register x0, little-endian. -/
theorem c8_halt_program : (compile ": 0\n_").map Prod.fst = some [0x6F, 0x00, 0x00, 0x00] := by
  decide

/-- C10: compiling a source with no effective lines succeeds with a
0-length byte vector, an empty trace, and no labels or constants
recorded. -/
theorem c10_no_effective_lines (src : String) (h : effectiveLines src = []) :
    compile src = some ([], []) ∧ (pass1Run (effectiveLines src)).labels = [] ∧
      (pass1Run (effectiveLines src)).constants = [] := by
  simp only [compile, pass2Of, h]
  decide

/-- Witness for C10 at a comment-and-blank-only source. -/
theorem c10_no_effective_lines_witness :
    compile "; note\n;- block\ncomment -;\n   \n" = some ([], []) ∧
      (pass1Run (effectiveLines "; note\n;- block\ncomment -;\n   \n")).labels = [] ∧
      (pass1Run (effectiveLines "; note\n;- block\ncomment -;\n   \n")).constants = [] :=
  c10_no_effective_lines "; note\n;- block\ncomment -;\n   \n" (by decide)

/-- C4: whenever a pass fails, `compile` returns the failure sentinel
(`null`), so the caller receives no byte vector and no trace — a complete
result or nothing. -/
theorem c4_failure_returns_nothing (src : String) (e : AErr) (h : pass2Of src = .error e) :
    compile src = none := by
  simp only [compile, h]

/-- Witness for C4 at a source whose store line names an unknown
register. -/
theorem c4_failure_returns_nothing_witness : compile ": 0\n[x1] y5" = none :=
  c4_failure_returns_nothing ": 0\n[x1] y5" (.unknownRegister "y5") rfl

/-- C2 fails on the code: for the source `: 0` / `? x0 == x0` / `  _`
(an `if` block still open at end of input) pass 1's end-of-input pop adds
4 bytes for the `if` frame (final pc 12) while pass 2 emits nothing for
it (8 bytes of output). The claim (and the spec's table) say the `if`
closer contributes 0 in both passes. -/
theorem c2_if_eof_closer_discrepancy :
    (pass1Run (effectiveLines ": 0\n? x0 == x0\n  _")).pc = some 12 ∧
      (compile ": 0\n? x0 == x0\n  _").map (fun r => r.1.length) = some 8 := by
  decide

/-- C3 fails on the code: in `: 0` / `& x0 == x0` / `  _` / `_` the
`while` block is closed by the dedented final line, and pass 1 records no
`_B_END_1` label at all (the dedent pop loop never writes end labels);
only for a block still open at end of input — second conjunct, source
without the dedented line — is the end label recorded, there at the pc
following the closing contribution. -/
theorem c3_dedent_close_records_no_end_label :
    mhas (pass1Run (effectiveLines ": 0\n& x0 == x0\n  _\n_")).labels "_B_END_1" = false ∧
      mfind (pass1Run (effectiveLines ": 0\n& x0 == x0\n  _")).labels "_B_END_1" =
        some (some 12) := by
  decide

/-- C1 fails on the code as stated: the source `: 0` / `foo` compiles
successfully (pass 2 silently skips the unresolved identifier), yet the
output holds 0 bytes while pass 1's final pc minus the origin is 4. -/
theorem c1_counterexample :
    (compile ": 0\nfoo").map (fun r => r.1.length) = some 0 ∧
      (pass1Run (effectiveLines ": 0\nfoo")).pc = some 4 ∧
      (pass1Run (effectiveLines ": 0\nfoo")).origin = some 0 ∧
      (pass1Run (effectiveLines ": 0\nfoo")).pc ≠
        jadd (pass1Run (effectiveLines ": 0\nfoo")).origin (some 0) := by
  decide

/-- C5 fails on the code as stated: a `..` (continue) line with no open
loop does abort the compile, but via a JS `TypeError` on the missing
frame whose message does not include the offending token `..`. -/
theorem c5_counterexample :
    pass2Of ": 0\n.." = .error (.undefRead "start") ∧
      compile ": 0\n.." = none ∧
      hasSubstr (AErr.message (.undefRead "start")) ".." = false := by
  refine ⟨rfl, rfl, by decide⟩

/-- C9 fails on the code as stated: in the one-line source
`  ;- c -;  x5 7` removal of the block comment shifts the recorded
indentation of the remaining code from 2 (the raw line's leading
whitespace) to 4. -/
theorem c9_counterexample :
    effectiveLines "  ;- c -;  x5 7" = [{ text := "x5 7", indent := 4 }] ∧
      leadingWs (chars "  ;- c -;  x5 7") = 2 := by
  decide

/-! ### C7: the Value Resolver against the spec's rule list

`parseValueSpec` is written from §4.2 of the spec: rule 1 computes the
multiplier and strips the suffix; rules 2–5 are ordered attempts, the
first applicable one winning; rule 6 is the decimal fallback. -/

/-- Spec rule 1: `kb`/`mb` suffix (case-insensitive) sets the multiplier
and is stripped. -/
def pvMultSpec (t : String) : Int × String :=
  if strEnds (strLower t) "kb" then (1024, strDropRight t 2)
  else if strEnds (strLower t) "mb" then (1048576, strDropRight t 2)
  else (1, t)

/-- Spec rule 2: a constant name returns the constant × multiplier. -/
def pvRuleConst (sy : Syms) (m : Int) (s : String) : Option JInt :=
  if mhas sy.constants s then some (jmulI (mget sy.constants s) m) else none

/-- Spec rule 3: a label name returns the label's address; the multiplier
is ignored — labels are never scaled. -/
def pvRuleLabel (sy : Syms) (s : String) : Option JInt :=
  if mhas sy.labels s then some (mget sy.labels s) else none

/-- Spec rule 4: a `0x` token parses as hexadecimal × multiplier. -/
def pvRuleHex (m : Int) (s : String) : Option JInt :=
  if strStarts s "0x" then some (jmulI (jsParseIntHex s) m) else none

/-- Spec rule 5: a quote token returns the code point of the next
character × multiplier. -/
def pvRuleChar (m : Int) (s : String) : Option JInt :=
  if strStarts s (str [apos]) then some (jmulI (charCodeAt s 1) m) else none

/-- Spec rule 6: decimal parse × multiplier on success, 0 on failure. -/
def pvRuleDec (m : Int) (s : String) : JInt :=
  match jsParseIntAny s with
  | some v => some (v * m)
  | none => some 0

/-- First applicable rule wins; otherwise the default. -/
def firstRule : List (Option JInt) → JInt → JInt
  | [], dflt => dflt
  | some v :: _, _ => v
  | none :: rest, dflt => firstRule rest dflt

/-- The Value Resolver as §4.2 words it: an empty token returns 0,
otherwise the rules apply in their listed order. -/
def parseValueSpec (sy : Syms) (tok : Option String) : JInt :=
  match tok with
  | none => some 0
  | some t =>
      if t = "" then some 0
      else
        let p := pvMultSpec t
        firstRule [pvRuleConst sy p.1 p.2, pvRuleLabel sy p.2,
                   pvRuleHex p.1 p.2, pvRuleChar p.1 p.2] (pvRuleDec p.1 p.2)

theorem pv_chain (sy : Syms) (m : Int) (s : String) :
    (if mhas sy.constants s then jmulI (mget sy.constants s) m
     else if mhas sy.labels s then mget sy.labels s
     else if strStarts s "0x" then jmulI (jsParseIntHex s) m
     else if strStarts s (str [apos]) then jmulI (charCodeAt s 1) m
     else
       match jsParseIntAny s with
       | some v => some (v * m)
       | none => some 0) =
    firstRule [pvRuleConst sy m s, pvRuleLabel sy s, pvRuleHex m s, pvRuleChar m s]
      (pvRuleDec m s) := by
  simp only [pvRuleConst, pvRuleLabel, pvRuleHex, pvRuleChar, pvRuleDec]
  by_cases h1 : mhas sy.constants s <;> by_cases h2 : mhas sy.labels s <;>
    by_cases h3 : strStarts s "0x" <;>
      by_cases h4 : strStarts s (str [apos]) <;>
        simp [h1, h2, h3, h4, firstRule]

/-- C7: the implemented Value Resolver agrees with the spec's ordered
rule list on every symbol table and every token (including the absent
token, which resolves to 0). -/
theorem c7_value_resolver_rule_order (sy : Syms) (tok : Option String) :
    parseValue sy tok = parseValueSpec sy tok := by
  cases tok with
  | none => rfl
  | some t =>
      by_cases h0 : t = ""
      · simp [parseValue, parseValueSpec, h0]
      · simp only [parseValue, parseValueSpec, h0, if_false]
        have hm : (if strEnds (strLower t) "kb" then ((1024 : Int), strDropRight t 2)
            else if strEnds (strLower t) "mb" then ((1048576 : Int), strDropRight t 2)
            else ((1 : Int), t)) = pvMultSpec t := rfl
        rw [hm]
        exact pv_chain sy (pvMultSpec t).1 (pvMultSpec t).2

/-! ### Projection lemmas for the emitters -/

@[simp] theorem emitTrace_pc (s : P2State) (t : String) : (emitTrace s t).pc = s.pc := rfl
@[simp] theorem emitTrace_inCode (s : P2State) (t : String) : (emitTrace s t).inCode = s.inCode := rfl
@[simp] theorem emitTrace_stack (s : P2State) (t : String) : (emitTrace s t).blockStack = s.blockStack := rfl
@[simp] theorem emitTrace_bCounter (s : P2State) (t : String) : (emitTrace s t).bCounter = s.bCounter := rfl
@[simp] theorem emitTrace_code (s : P2State) (t : String) : (emitTrace s t).code = s.code := rfl

@[simp] theorem traceIf_pc (s : P2State) (a : String) : (traceIf s a).pc = s.pc := by
  unfold traceIf; split <;> rfl
@[simp] theorem traceIf_inCode (s : P2State) (a : String) : (traceIf s a).inCode = s.inCode := by
  unfold traceIf; split <;> rfl
@[simp] theorem traceIf_stack (s : P2State) (a : String) : (traceIf s a).blockStack = s.blockStack := by
  unfold traceIf; split <;> rfl
@[simp] theorem traceIf_bCounter (s : P2State) (a : String) : (traceIf s a).bCounter = s.bCounter := by
  unfold traceIf; split <;> rfl
@[simp] theorem traceIf_code (s : P2State) (a : String) : (traceIf s a).code = s.code := by
  unfold traceIf; split <;> rfl

@[simp] theorem pushWord_pc (s : P2State) (w : Nat) : (pushWord s w).pc = s.pc := rfl
@[simp] theorem pushWord_inCode (s : P2State) (w : Nat) : (pushWord s w).inCode = s.inCode := rfl
@[simp] theorem pushWord_stack (s : P2State) (w : Nat) : (pushWord s w).blockStack = s.blockStack := rfl
@[simp] theorem pushWord_bCounter (s : P2State) (w : Nat) : (pushWord s w).bCounter = s.bCounter := rfl
@[simp] theorem pushWord_code (s : P2State) (w : Nat) : (pushWord s w).code = s.code ++ wordBytes w := rfl

@[simp] theorem emitR_pc (s : P2State) (op f3 f7 rd rs1 rs2 : Nat) (a : String) :
    (emitR s op f3 f7 rd rs1 rs2 a).pc = s.pc := by unfold emitR; simp
@[simp] theorem emitR_inCode (s : P2State) (op f3 f7 rd rs1 rs2 : Nat) (a : String) :
    (emitR s op f3 f7 rd rs1 rs2 a).inCode = s.inCode := by unfold emitR; simp
@[simp] theorem emitR_stack (s : P2State) (op f3 f7 rd rs1 rs2 : Nat) (a : String) :
    (emitR s op f3 f7 rd rs1 rs2 a).blockStack = s.blockStack := by unfold emitR; simp
@[simp] theorem emitR_bCounter (s : P2State) (op f3 f7 rd rs1 rs2 : Nat) (a : String) :
    (emitR s op f3 f7 rd rs1 rs2 a).bCounter = s.bCounter := by unfold emitR; simp
@[simp] theorem emitR_code (s : P2State) (op f3 f7 rd rs1 rs2 : Nat) (a : String) :
    (emitR s op f3 f7 rd rs1 rs2 a).code = s.code ++ wordBytes (wordR op f3 f7 rd rs1 rs2) := by
  unfold emitR; simp

@[simp] theorem emitI_pc (s : P2State) (op f3 rd rs1 : Nat) (imm : JInt) (a : String) :
    (emitI s op f3 rd rs1 imm a).pc = s.pc := by unfold emitI; simp
@[simp] theorem emitI_inCode (s : P2State) (op f3 rd rs1 : Nat) (imm : JInt) (a : String) :
    (emitI s op f3 rd rs1 imm a).inCode = s.inCode := by unfold emitI; simp
@[simp] theorem emitI_stack (s : P2State) (op f3 rd rs1 : Nat) (imm : JInt) (a : String) :
    (emitI s op f3 rd rs1 imm a).blockStack = s.blockStack := by unfold emitI; simp
@[simp] theorem emitI_bCounter (s : P2State) (op f3 rd rs1 : Nat) (imm : JInt) (a : String) :
    (emitI s op f3 rd rs1 imm a).bCounter = s.bCounter := by unfold emitI; simp
@[simp] theorem emitI_code (s : P2State) (op f3 rd rs1 : Nat) (imm : JInt) (a : String) :
    (emitI s op f3 rd rs1 imm a).code = s.code ++ wordBytes (wordI op f3 rd rs1 imm) := by
  unfold emitI; simp

@[simp] theorem emitS_pc (s : P2State) (op f3 rs1 rs2 : Nat) (imm : JInt) (a : String) :
    (emitS s op f3 rs1 rs2 imm a).pc = s.pc := by unfold emitS; simp
@[simp] theorem emitS_inCode (s : P2State) (op f3 rs1 rs2 : Nat) (imm : JInt) (a : String) :
    (emitS s op f3 rs1 rs2 imm a).inCode = s.inCode := by unfold emitS; simp
@[simp] theorem emitS_stack (s : P2State) (op f3 rs1 rs2 : Nat) (imm : JInt) (a : String) :
    (emitS s op f3 rs1 rs2 imm a).blockStack = s.blockStack := by unfold emitS; simp
@[simp] theorem emitS_bCounter (s : P2State) (op f3 rs1 rs2 : Nat) (imm : JInt) (a : String) :
    (emitS s op f3 rs1 rs2 imm a).bCounter = s.bCounter := by unfold emitS; simp
@[simp] theorem emitS_code (s : P2State) (op f3 rs1 rs2 : Nat) (imm : JInt) (a : String) :
    (emitS s op f3 rs1 rs2 imm a).code = s.code ++ wordBytes (wordS op f3 rs1 rs2 imm) := by
  unfold emitS; simp

@[simp] theorem emitU_pc (s : P2State) (op rd imm : Nat) (a : String) :
    (emitU s op rd imm a).pc = s.pc := by unfold emitU; simp
@[simp] theorem emitU_inCode (s : P2State) (op rd imm : Nat) (a : String) :
    (emitU s op rd imm a).inCode = s.inCode := by unfold emitU; simp
@[simp] theorem emitU_stack (s : P2State) (op rd imm : Nat) (a : String) :
    (emitU s op rd imm a).blockStack = s.blockStack := by unfold emitU; simp
@[simp] theorem emitU_bCounter (s : P2State) (op rd imm : Nat) (a : String) :
    (emitU s op rd imm a).bCounter = s.bCounter := by unfold emitU; simp
@[simp] theorem emitU_code (s : P2State) (op rd imm : Nat) (a : String) :
    (emitU s op rd imm a).code = s.code ++ wordBytes (wordU op rd imm) := by
  unfold emitU; simp

@[simp] theorem emitB_pc (s : P2State) (op f3 rs1 rs2 : Nat) (imm : JInt) (a : String) :
    (emitB s op f3 rs1 rs2 imm a).pc = s.pc := by unfold emitB; simp
@[simp] theorem emitB_inCode (s : P2State) (op f3 rs1 rs2 : Nat) (imm : JInt) (a : String) :
    (emitB s op f3 rs1 rs2 imm a).inCode = s.inCode := by unfold emitB; simp
@[simp] theorem emitB_stack (s : P2State) (op f3 rs1 rs2 : Nat) (imm : JInt) (a : String) :
    (emitB s op f3 rs1 rs2 imm a).blockStack = s.blockStack := by unfold emitB; simp
@[simp] theorem emitB_bCounter (s : P2State) (op f3 rs1 rs2 : Nat) (imm : JInt) (a : String) :
    (emitB s op f3 rs1 rs2 imm a).bCounter = s.bCounter := by unfold emitB; simp
@[simp] theorem emitB_code (s : P2State) (op f3 rs1 rs2 : Nat) (imm : JInt) (a : String) :
    (emitB s op f3 rs1 rs2 imm a).code = s.code ++ wordBytes (wordB op f3 rs1 rs2 imm) := by
  unfold emitB; simp

@[simp] theorem emitJ_pc (s : P2State) (op rd : Nat) (imm : JInt) (a : String) :
    (emitJ s op rd imm a).pc = s.pc := by unfold emitJ; simp
@[simp] theorem emitJ_inCode (s : P2State) (op rd : Nat) (imm : JInt) (a : String) :
    (emitJ s op rd imm a).inCode = s.inCode := by unfold emitJ; simp
@[simp] theorem emitJ_stack (s : P2State) (op rd : Nat) (imm : JInt) (a : String) :
    (emitJ s op rd imm a).blockStack = s.blockStack := by unfold emitJ; simp
@[simp] theorem emitJ_bCounter (s : P2State) (op rd : Nat) (imm : JInt) (a : String) :
    (emitJ s op rd imm a).bCounter = s.bCounter := by unfold emitJ; simp
@[simp] theorem emitJ_code (s : P2State) (op rd : Nat) (imm : JInt) (a : String) :
    (emitJ s op rd imm a).code = s.code ++ wordBytes (wordJ op rd imm) := by
  unfold emitJ; simp

@[simp] theorem wordBytes_length (w : Nat) : (wordBytes w).length = 4 := rfl

@[simp] theorem emitLoadConst_pc (s : P2State) (rd : Nat) (val : JInt) :
    (emitLoadConst s rd val).pc = s.pc := by unfold emitLoadConst; split <;> simp
@[simp] theorem emitLoadConst_inCode (s : P2State) (rd : Nat) (val : JInt) :
    (emitLoadConst s rd val).inCode = s.inCode := by unfold emitLoadConst; split <;> simp
@[simp] theorem emitLoadConst_stack (s : P2State) (rd : Nat) (val : JInt) :
    (emitLoadConst s rd val).blockStack = s.blockStack := by unfold emitLoadConst; split <;> simp
@[simp] theorem emitLoadConst_bCounter (s : P2State) (rd : Nat) (val : JInt) :
    (emitLoadConst s rd val).bCounter = s.bCounter := by unfold emitLoadConst; split <;> simp
theorem emitLoadConst_code_length (s : P2State) (rd : Nat) (val : JInt) :
    (emitLoadConst s rd val).code.length = s.code.length + 4 := by
  unfold emitLoadConst; split <;> simp

/-! ### C9 (amended): `;`-comment truncation never shifts indentation -/

theorem trimL_cons_ws {c : Char} (hc : isWs c = true) (t : List Char) :
    trimL (c :: t) = trimL t := by
  simp [trimL, List.dropWhile, hc]

theorem leadingWs_truncSemi (l : List Char) (h : trimL (truncSemi l) ≠ []) :
    leadingWs (truncSemi l) = leadingWs l := by
  induction l with
  | nil => simp [truncSemi, trimL] at h
  | cons c rest ih =>
      by_cases hsemi : c = ';'
      · subst hsemi
        simp [truncSemi, List.takeWhile, trimL] at h
      · have ht : truncSemi (c :: rest) = c :: truncSemi rest := by
          simp [truncSemi, List.takeWhile, hsemi]
        rw [ht] at h ⊢
        by_cases hw : isWs c
        · have ih' := ih (by rw [trimL_cons_ws hw] at h; exact h)
          simp [leadingWs, List.takeWhile, hw] at ih' ⊢
          exact ih'
        · simp [leadingWs, List.takeWhile, hw]

/-- C9 (amended): for every raw line of the block-comment-free source
that survives preprocessing, the recorded indentation column equals the
number of leading whitespace characters of the pre-trim text, and
end-of-line `;`-comment truncation never shifts it; block-comment
removal, however, can shift it (see the counterexample). -/
theorem c9_semicolon_comments_preserve_indent (l : List Char) (rec : Line)
    (h : lineRec l = some rec) : rec.indent = leadingWs l := by
  by_cases ht : trimL (truncSemi l) = []
  · simp [lineRec, ht] at h
  · simp only [lineRec, ht, if_false, Option.some.injEq] at h
    rw [← h]
    exact leadingWs_truncSemi l ht

/-- Witness for C9 (amended) at a line with leading spaces and a trailing
`;` comment. -/
theorem c9_semicolon_comments_preserve_indent_witness :
    (Line.mk "x5 7" 2).indent = leadingWs (chars "  x5 7 ; load") :=
  c9_semicolon_comments_preserve_indent (chars "  x5 7 ; load") (Line.mk "x5 7" 2) (by decide)

/-! ### C5 (amended): break/continue outside a loop aborts, but with a
generic undefined-property error that does not carry the token -/

theorem pops_all_cond (env : Env) (ind : Nat) (stack : List Frame) (s : P2State)
    (h : ∀ f ∈ stack, f.kind = .cond) :
    ∃ s2, pass2PopsAux env ind stack s = .ok s2 ∧ s2.pc = s.pc ∧
      s2.inCode = s.inCode ∧ (∀ f ∈ s2.blockStack, f.kind = .cond) ∧
      s2.code = s.code ∧ s2.bCounter = s.bCounter := by
  induction stack generalizing s with
  | nil => exact ⟨_, rfl, rfl, rfl, by simp [pass2PopsAux], rfl, rfl⟩
  | cons b rest ih =>
      have hb : b.kind = .cond := h b (by simp)
      by_cases hind : ind ≤ b.indent
      · obtain ⟨s2, h1, h2, h3, h4, h5, h6⟩ :=
          ih (emitTrace s ("; --- End of Block " ++ b.endLbl ++ " ---"))
            (fun f hf => h f (List.mem_cons_of_mem _ hf))
        refine ⟨s2, ?_, h2, h3, h4, h5, h6⟩
        simp only [pass2PopsAux, if_pos hind, hb]
        exact h1
      · refine ⟨{ s with blockStack := b :: rest }, ?_, rfl, rfl, ?_, rfl, rfl⟩
        · simp only [pass2PopsAux, if_neg hind]
        · exact h

/-- C5 (amended): a `.` (break) or `..` (continue) line reached in code
with no `while`/`range` frame on the stack (only `if` frames, or none)
makes pass 2 fail — aborting the compile — but with the generic JS
undefined-property error, whose message does not include the offending
token. -/
theorem c5_break_outside_loop_aborts (env : Env) (s : P2State) (ln : Line)
    (htext : ln.text = "." ∨ ln.text = "..")
    (hcode : s.inCode = true)
    (hstack : ∀ f ∈ s.blockStack, f.kind = .cond) :
    ∃ fld, pass2Line env s ln = .error (.undefRead fld) ∧
      hasSubstr (AErr.message (.undefRead fld)) ln.text = false := by
  obtain ⟨s2, hpop, hpc, hic, hstk, hcd, hbc⟩ := pops_all_cond env ln.indent s.blockStack s hstack
  have hfind : s2.blockStack.find? (fun b => b.kind = BKind.wh || b.kind = BKind.rg) = none := by
    rw [List.find?_eq_none]
    intro f hf
    simp [hstk f hf]
  have hic' : s2.inCode = true := by rw [hic, hcode]
  rcases htext with h | h
  · refine ⟨"end", ?_, by rw [h]; decide⟩
    simp only [pass2Line, h, hpop]
    simp +decide [h, pass2Core, pass2Rest, emitTrace, hic', hfind]
  · refine ⟨"start", ?_, by rw [h]; decide⟩
    simp only [pass2Line, h, hpop]
    simp +decide [h, pass2Core, pass2Rest, emitTrace, hic', hfind]

/-- Witness for C5 (amended): a lone `.` in code with an empty block
stack. -/
theorem c5_break_outside_loop_aborts_witness :
    ∃ fld, pass2Line ⟨[], []⟩ { initP2 (some 0) with inCode := true } ⟨".", 0⟩ =
        .error (.undefRead fld) ∧
      hasSubstr (AErr.message (.undefRead fld)) (Line.mk "." 0).text = false :=
  c5_break_outside_loop_aborts ⟨[], []⟩ { initP2 (some 0) with inCode := true } ⟨".", 0⟩
    (Or.inl rfl) rfl (by intro f hf; cases hf)

/-! ### C6: single-instruction move/load-immediate -/

theorem findSome?_mem {α β : Type} (f : α → Option β) :
    ∀ (l : List α) (b : β), l.findSome? f = some b → ∃ a ∈ l, f a = some b := by
  intro l
  induction l with
  | nil => intro b h; simp [List.findSome?] at h
  | cons a rest ih =>
      intro b h
      rw [List.findSome?] at h
      cases hfa : f a with
      | some w =>
          rw [hfa] at h
          simp at h
          exact ⟨a, by simp, by rw [hfa, h]⟩
      | none =>
          rw [hfa] at h
          simp at h
          obtain ⟨x, hx, hfx⟩ := ih b h
          exact ⟨x, by simp [hx], hfx⟩

theorem regIndex_shape {r : String} {i : Nat} (h : regIndex r = some i) :
    r = "x" ++ toString i := by
  unfold regIndex at h
  obtain ⟨a, _, hfa⟩ := findSome?_mem _ _ _ h
  by_cases hra : r = "x" ++ toString a
  · rw [if_pos hra] at hfa
    cases hfa
    exact hra
  · rw [if_neg hra] at hfa
    cases hfa

theorem starts_bracket_mono {v : String} (h : strStarts v "[" = false) :
    strStarts v "[--" = false := by
  unfold strStarts at h ⊢
  cases hl : chars v with
  | nil => rfl
  | cons c t =>
      rw [hl] at h
      simp [List.isPrefixOf] at h ⊢
      intro hc
      exact absurd hc h

/-- C6: a two-token line `RD SRC` whose source operand is not a register
and not a memory bracket makes pass 2 emit exactly one word (4 bytes):
an add-immediate from the zero register when the resolved integer lies in
[-2048, 2047], otherwise an upper-immediate (LUI) carrying the high 20
bits of the value, the low 12 bits being discarded by `bitf … 12 20`;
pass 1 budgets exactly 4 bytes for the same line. -/
theorem c6_load_immediate_single_word (env : Env) (s : P2State) (ln : Line)
    (r v : String) (rd : Nat)
    (htok : splitWs ln.text = [r, v])
    (hns : strStarts ln.text ":" = false) (hne : strEnds ln.text ":" = false)
    (hcode : s.inCode = true) (hstack : s.blockStack = [])
    (hrd : regIndex r = some rd)
    (hv : isReg v = false) (hvb : strStarts v "[" = false) :
    (∃ s', pass2Line env s ln = .ok s' ∧ s'.pc = jaddI s.pc 4 ∧
      ∀ n : Int, parseValue ⟨env.constants, env.labels⟩ (some v) = some n →
        ((-2048 ≤ n ∧ n ≤ 2047) →
           s'.code = s.code ++ wordBytes (wordI 0x13 0 rd 0 (some n))) ∧
        (¬(-2048 ≤ n ∧ n ≤ 2047) →
           s'.code = s.code ++ wordBytes (wordU 0x37 rd (bitf (u32 (some n)) 12 20)))) ∧
    (∀ s1 : P1State, s1.inCode = true → s1.blockStack = [] →
      (pass1Line s1 ln).pc = jaddI s1.pc 4) := by
  have hneq : ∀ t : String, regIndex t = none → ¬(r = t) := by
    intro t ht he
    rw [he, ht] at hrd
    cases hrd
  have hr1 : isReg r = true := by rw [isReg, hrd]; rfl
  have hrb : strStarts r "[" = false := by rw [regIndex_shape hrd]; rfl
  have hvbb : strStarts v "[--" = false := starts_bracket_mono hvb
  constructor
  · have hpops : pass2PopsAux env ln.indent s.blockStack s = .ok { s with blockStack := [] } := by
      rw [hstack]; rfl
    simp only [pass2Line, htok, hpops]
    simp +decide [htok, pass2Core, pass2Rest, emitTrace, hcode, hns, hne, hr1, hrd, hv, hvb, hvbb, hrb,
      isCallLine, tokGet, hneq "_" rfl, hneq "=" rfl, hneq "." rfl, hneq ".." rfl,
      hneq "&" rfl, hneq "?" rfl]
    intro n hn
    rw [hn]
    constructor
    · intro h1 h2
      have hb : (jGeI (some n) (-2048) && jLeI (some n) 2047) = true := by
        simp [jGeI, jLeI]
        omega
      rw [emitLoadConst, if_pos hb]
      simp [emitTrace]
    · intro hr
      have hb : (jGeI (some n) (-2048) && jLeI (some n) 2047) = false := by
        simp only [jGeI, jLeI]
        by_cases hc : (-2048 : Int) ≤ n
        · have := hr hc
          simp
          omega
        · simp
          omega
      rw [emitLoadConst, if_neg (by rw [hb]; exact Bool.false_ne_true)]
      simp [emitTrace]
  · intro s1 h1 h2
    have hpops1 : pass1Pops s1.blockStack s1.pc ln.indent = ([], s1.pc) := by
      rw [h2]; rfl
    simp only [pass1Line, htok, hpops1]
    simp +decide [pass1Core, htok, h1, hns, hne, hr1, hrd, hv, hvb, hvbb, hrb, isCallLine, tokGet,
      hneq "_" rfl, hneq "=" rfl, hneq "." rfl, hneq ".." rfl, hneq "&" rfl, hneq "?" rfl]

/-- Witness for C6 at the line `x5 7` (in-range constant). -/
theorem c6_load_immediate_single_word_witness :
    (∃ s', pass2Line ⟨[], []⟩ { initP2 (some 0) with inCode := true } ⟨"x5 7", 0⟩ = .ok s' ∧
      s'.pc = jaddI (initP2 (some 0)).pc 4 ∧
      ∀ n : Int, parseValue ⟨[], []⟩ (some "7") = some n →
        ((-2048 ≤ n ∧ n ≤ 2047) →
           s'.code = (initP2 (some 0)).code ++ wordBytes (wordI 0x13 0 5 0 (some n))) ∧
        (¬(-2048 ≤ n ∧ n ≤ 2047) →
           s'.code = (initP2 (some 0)).code ++ wordBytes (wordU 0x37 5 (bitf (u32 (some n)) 12 20)))) ∧
    (∀ s1 : P1State, s1.inCode = true → s1.blockStack = [] →
      (pass1Line s1 ⟨"x5 7", 0⟩).pc = jaddI s1.pc 4) :=
  c6_load_immediate_single_word ⟨[], []⟩ { initP2 (some 0) with inCode := true } ⟨"x5 7", 0⟩
    "x5" "7" 5 (by decide) (by decide) (by decide) rfl rfl (by decide) (by decide) (by decide)

/-! ### C1: size consistency between the passes

The claim fails as stated (`c1_counterexample`); the amended claim holds
for sources whose effective code lines are all handled consistently by
both passes (see `lineOK`): `=`-lines use the `[REG++]` form, conditional
openers use one of the four generated operators, bare-token lines name a
recorded label (or are inert in both passes), an explicit origin line
only appears first, and no `if` block is still open at end of input
(which is the separate bug of C2). -/

/-- The four comparison operators for which the conditional opener
actually emits a branch. -/
def opsBranch : List String := ["<", ">=", "==", "!="]

/-- Per-line consistency condition making the byte cost of the line equal
in both passes (only constrains lines reached in code). -/
def lineOK (labels : SMap) (l : Line) : Bool :=
  let tokens := splitWs l.text
  let t0 := tokGet tokens 0
  if strStarts l.text ":" || strEnds l.text ":" then true
  else if t0 = "_" then true
  else if t0 = "=" then decide (tokens.length ≥ 2) && hasSubstr (tokGet tokens 1) "++"
  else if isCallLine tokens then true
  else if t0 = "." || t0 = ".." then true
  else if t0 = "&" || t0 = "?" then
    if isRangeLine t0 tokens then true else opsBranch.contains (tokGet tokens 2)
  else if strStarts t0 "[" then true
  else if isReg t0 then true
  else (matchesIdent t0 && mhas labels t0) || (!matchesIdent t0 && !mhas labels t0)

/-- `lineOK` for every line reached with the in-code flag set, tracking
the flag exactly as both passes do. -/
def linesOK (labels : SMap) : Bool → List Line → Bool
  | _, [] => true
  | inC, l :: rest =>
      (!inC || lineOK labels l) &&
      linesOK labels (inC || strStarts l.text ":" || strEnds l.text ":") rest

/-- No entry-point line carrying a value token (such lines reset pass 1's
pc but not pass 2's). -/
def colonsOK (L : List Line) : Bool :=
  L.all (fun l => !strStarts l.text ":" || decide ((splitWs l.text).length ≤ 1))

/-- If the first effective line is a valued entry point, its value must
resolve to an actual number (not NaN). -/
def headOriginOK : List Line → Bool
  | [] => true
  | l :: _ =>
      !strStarts l.text ":" ||
        (match (splitWs l.text).get? 1 with
         | none => true
         | some t => (parseValue ⟨[], []⟩ (some t)).isSome)

/-- Output length of a pass-2 run (0 for a failed run). -/
def p2codeLen : Except AErr P2State → Nat
  | .ok s => s.code.length
  | .error _ => 0

/-- Pass 1 resumed from an arbitrary state. -/
def pass1From (s : P1State) (L : List Line) : P1State :=
  let t := L.foldl pass1Line s
  let fin := pass1EofAux t.blockStack t.pc t.labels
  { t with pc := fin.1, labels := fin.2 }

theorem pass1Run_eq_from (L : List Line) : pass1Run L = pass1From initP1 L := rfl

theorem pass1From_cons (s : P1State) (l : Line) (rest : List Line) :
    pass1From s (l :: rest) = pass1From (pass1Line s l) rest := rfl

/-- The coupling between the two passes that makes their byte accounting
agree: same stack, counter and in-code flag, same pc, and pass 2 has
emitted exactly `pc − origin` bytes. -/
structure Sync (o : Int) (s1 : P1State) (s2 : P2State) : Prop where
  stk : s2.blockStack = s1.blockStack
  ctr : s2.bCounter = s1.blockCounter
  inc : s2.inCode = s1.inCode
  pc2 : s2.pc = s1.pc
  pcv : s1.pc = some (o + (s2.code.length : Int))
  org : s1.origin = some o

theorem bf {b : Bool} (h : b = false) : ¬(b = true) := by simp [h]

theorem mhas_mset {m : SMap} {k : String} (k' : String) (v : JInt) (h : mhas m k = true) :
    mhas (mset m k' v) k = true := by
  simp only [mhas, mfind, mset] at h ⊢
  by_cases he : k' = k
  · subst he
    rw [List.find?_cons_of_pos _ (by simp)]
    simp
  · rw [List.find?_cons_of_neg _ (by simp [he])]
    exact h

theorem pass1Core_labels_mono (s : P1State) (l : Line) {k : String}
    (h : mhas s.labels k = true) : mhas (pass1Core s l).labels k = true := by
  unfold pass1Core
  by_cases h1 : strStarts l.text ":"
  · rw [if_pos h1]
    cases (splitWs l.text).get? 1 <;> exact mhas_mset _ _ h
  · rw [if_neg h1]
    by_cases h2 : strEnds l.text ":"
    · rw [if_pos h2]
      exact mhas_mset _ _ h
    · rw [if_neg h2]
      by_cases h3 : (!s.inCode) = true
      · rw [if_pos h3]
        exact h
      · rw [if_neg h3]
        by_cases h4 : tokGet (splitWs l.text) 0 = "_"
        · rw [if_pos h4]; exact h
        · rw [if_neg h4]
          by_cases h5 : tokGet (splitWs l.text) 0 = "="
          · rw [if_pos h5]; exact h
          · rw [if_neg h5]
            by_cases h6 : isCallLine (splitWs l.text) = true
            · rw [if_pos h6]; exact h
            · rw [if_neg h6]
              by_cases h7 : (decide (tokGet (splitWs l.text) 0 = ".") || decide (tokGet (splitWs l.text) 0 = "..")) = true
              · rw [if_pos h7]; exact h
              · rw [if_neg h7]
                by_cases h8 : (decide (tokGet (splitWs l.text) 0 = "&") || decide (tokGet (splitWs l.text) 0 = "?")) = true
                · rw [if_pos h8]
                  by_cases h9 : isRangeLine (tokGet (splitWs l.text) 0) (splitWs l.text) = true
                  · rw [if_pos h9]
                    exact mhas_mset _ _ h
                  · rw [if_neg h9]
                    by_cases h10 : tokGet (splitWs l.text) 0 = "&"
                    · simp only [if_pos h10]
                      exact mhas_mset _ _ h
                    · simp only [if_neg h10]
                      exact h
                · rw [if_neg h8]
                  by_cases h11 : strStarts (tokGet (splitWs l.text) 0) "[" = true
                  · rw [if_pos h11]; exact h
                  · rw [if_neg h11]
                    by_cases h12 : isReg (tokGet (splitWs l.text) 0) = true
                    · rw [if_pos h12]
                      cases (splitWs l.text).get? 1 with
                      | none => exact h
                      | some t1 =>
                          dsimp only
                          by_cases h13 : strStarts t1 "[" = true
                          · rw [if_pos h13]; exact h
                          · rw [if_neg h13]
                            by_cases h14 : (decide ((splitWs l.text).length > 2) &&
                                opsArith.contains (tokGet (splitWs l.text) 2)) = true
                            · rw [if_pos h14]; exact h
                            · rw [if_neg h14]; exact h
                    · rw [if_neg h12]
                      by_cases h15 : (mhas s.labels (tokGet (splitWs l.text) 0) ||
                          matchesIdent (tokGet (splitWs l.text) 0)) = true
                      · rw [if_pos h15]; exact h
                      · rw [if_neg h15]; exact h

theorem pass1Line_labels_mono (s : P1State) (l : Line) {k : String}
    (h : mhas s.labels k = true) : mhas (pass1Line s l).labels k = true := by
  unfold pass1Line
  exact pass1Core_labels_mono _ _ h

theorem pass1Go_labels_mono :
    ∀ (L : List Line) (s : P1State) {k : String}, mhas s.labels k = true →
      mhas (L.foldl pass1Line s).labels k = true := by
  intro L
  induction L with
  | nil => intro s k h; exact h
  | cons l rest ih => intro s k h; exact ih _ (pass1Line_labels_mono _ _ h)

theorem pass1EofAux_labels_mono :
    ∀ (stack : List Frame) (pc : JInt) (labels : SMap) {k : String},
      mhas labels k = true → mhas (pass1EofAux stack pc labels).2 k = true := by
  intro stack
  induction stack with
  | nil => intro pc labels k h; exact h
  | cons b rest ih => intro pc labels k h; exact ih _ _ (mhas_mset _ _ h)

theorem pass1From_labels_mono (s : P1State) (L : List Line) {k : String}
    (h : mhas s.labels k = true) : mhas (pass1From s L).labels k = true := by
  unfold pass1From
  exact pass1EofAux_labels_mono _ _ _ (pass1Go_labels_mono L s h)

theorem pass1Core_origin_pres (s : P1State) (l : Line)
    (hc : strStarts l.text ":" = true → (splitWs l.text).get? 1 = none) :
    (pass1Core s l).origin = s.origin := by
  unfold pass1Core
  by_cases h1 : strStarts l.text ":"
  · rw [if_pos h1, hc h1]
  · rw [if_neg h1]
    by_cases h2 : strEnds l.text ":"
    · rw [if_pos h2]
    · rw [if_neg h2]
      by_cases h3 : (!s.inCode) = true
      · rw [if_pos h3]
      · rw [if_neg h3]
        by_cases h4 : tokGet (splitWs l.text) 0 = "_"
        · rw [if_pos h4]
        · rw [if_neg h4]
          by_cases h5 : tokGet (splitWs l.text) 0 = "="
          · rw [if_pos h5]
          · rw [if_neg h5]
            by_cases h6 : isCallLine (splitWs l.text) = true
            · rw [if_pos h6]
            · rw [if_neg h6]
              by_cases h7 : (decide (tokGet (splitWs l.text) 0 = ".") || decide (tokGet (splitWs l.text) 0 = "..")) = true
              · rw [if_pos h7]
              · rw [if_neg h7]
                by_cases h8 : (decide (tokGet (splitWs l.text) 0 = "&") || decide (tokGet (splitWs l.text) 0 = "?")) = true
                · rw [if_pos h8]
                  by_cases h9 : isRangeLine (tokGet (splitWs l.text) 0) (splitWs l.text) = true
                  · rw [if_pos h9]
                  · rw [if_neg h9]
                · rw [if_neg h8]
                  by_cases h11 : strStarts (tokGet (splitWs l.text) 0) "[" = true
                  · rw [if_pos h11]
                  · rw [if_neg h11]
                    by_cases h12 : isReg (tokGet (splitWs l.text) 0) = true
                    · rw [if_pos h12]
                      cases (splitWs l.text).get? 1 with
                      | none => rfl
                      | some t1 =>
                          dsimp only
                          by_cases h13 : strStarts t1 "[" = true
                          · rw [if_pos h13]
                          · rw [if_neg h13]
                            by_cases h14 : (decide ((splitWs l.text).length > 2) &&
                                opsArith.contains (tokGet (splitWs l.text) 2)) = true
                            · rw [if_pos h14]
                            · rw [if_neg h14]
                    · rw [if_neg h12]
                      by_cases h15 : (mhas s.labels (tokGet (splitWs l.text) 0) ||
                          matchesIdent (tokGet (splitWs l.text) 0)) = true
                      · rw [if_pos h15]
                      · rw [if_neg h15]

theorem pass1Line_origin_pres (s : P1State) (l : Line)
    (hc : strStarts l.text ":" = true → (splitWs l.text).get? 1 = none) :
    (pass1Line s l).origin = s.origin := by
  unfold pass1Line
  exact pass1Core_origin_pres _ _ hc

theorem colonsOK_head {l : Line} {rest : List Line} (h : colonsOK (l :: rest) = true) :
    (strStarts l.text ":" = true → (splitWs l.text).get? 1 = none) ∧ colonsOK rest = true := by
  unfold colonsOK at h
  rw [List.all_cons] at h
  simp only [Bool.and_eq_true] at h
  refine ⟨fun hs => ?_, h.2⟩
  rcases h with ⟨h1, _⟩
  rw [hs] at h1
  simp at h1
  exact List.get?_eq_none.mpr h1

theorem pass1Go_origin_pres :
    ∀ (L : List Line) (s : P1State), colonsOK L = true →
      (L.foldl pass1Line s).origin = s.origin := by
  intro L
  induction L with
  | nil => intro s _; rfl
  | cons l rest ih =>
      intro s h
      obtain ⟨h1, h2⟩ := colonsOK_head h
      rw [List.foldl_cons, ih _ h2, pass1Line_origin_pres _ _ h1]

theorem pass1From_origin_pres (s : P1State) (L : List Line) (h : colonsOK L = true) :
    (pass1From s L).origin = s.origin := by
  unfold pass1From
  exact pass1Go_origin_pres L s h

theorem jaddI_len (o : Int) (n k : Nat) :
    jaddI (some (o + (n : Int))) (k : Int) = some (o + ((n + k : Nat) : Int)) := by
  simp only [jaddI, jadd]
  push_cast
  ring_nf

/-- Helper for pc accounting. -/
theorem jaddI_acc (o n k : Int) : jaddI (some (o + n)) k = some (o + (n + k)) := by
  simp [jaddI, jadd, add_assoc]

/-- The dedent pop loops of the two passes agree: starting from coupled
states, pass 2's pops leave the same stack and pc as pass 1's pops, and
have emitted exactly the bytes pass 1's pops charge for. -/
theorem pops_sync (env : Env) (o : Int) (ind : Nat) :
    ∀ (stack : List Frame) (s2 : P2State) (s2' : P2State),
      s2.pc = some (o + (s2.code.length : Int)) →
      pass2PopsAux env ind stack s2 = .ok s2' →
      s2'.blockStack = (pass1Pops stack s2.pc ind).1 ∧
      s2'.pc = (pass1Pops stack s2.pc ind).2 ∧
      s2'.pc = some (o + (s2'.code.length : Int)) ∧
      s2'.inCode = s2.inCode ∧ s2'.bCounter = s2.bCounter := by
  intro stack
  induction stack with
  | nil =>
      intro s2 s2' hpc hok
      cases hok
      exact ⟨rfl, hpc ▸ rfl, hpc, rfl, rfl⟩
  | cons b rest ih =>
      intro s2 s2' hpc hok
      by_cases hind : ind ≤ b.indent
      · cases hkind : b.kind with
        | wh =>
            rw [pass2PopsAux, if_pos hind, hkind] at hok
            simp only at hok
            have harg : ∀ (t : P2State), t.pc = some (o + (t.code.length : Int)) →
                pass2PopsAux env ind rest t = .ok s2' →
                s2'.blockStack = (pass1Pops rest t.pc ind).1 ∧
                s2'.pc = (pass1Pops rest t.pc ind).2 ∧
                s2'.pc = some (o + (s2'.code.length : Int)) ∧
                s2'.inCode = t.inCode ∧ s2'.bCounter = t.bCounter := fun t h1 h2 => ih t s2' h1 h2
            obtain ⟨a1, a2, a3, a4, a5⟩ := harg _ (by simp [hpc, jaddI_acc]) hok
            rw [pass1Pops, if_pos hind, hkind]
            simp only at a1 a2 a4 a5 ⊢
            refine ⟨?_, ?_, a3, ?_, ?_⟩
            · simpa [hpc, jaddI_acc] using a1
            · simpa [hpc, jaddI_acc] using a2
            · simpa using a4
            · simpa using a5
        | rg =>
            rw [pass2PopsAux, if_pos hind, hkind] at hok
            simp only at hok
            cases hreg : parseReg (some b.reg) with
            | error e => rw [hreg] at hok; cases hok
            | ok reg =>
                rw [hreg] at hok
                simp only at hok
                obtain ⟨a1, a2, a3, a4, a5⟩ := ih _ s2' (by simp [hpc, jaddI_acc]; ring) hok
                rw [pass1Pops, if_pos hind, hkind]
                simp only at a1 a2 a4 a5 ⊢
                refine ⟨?_, ?_, a3, ?_, ?_⟩
                · simpa [hpc, jaddI_acc] using a1
                · simpa [hpc, jaddI_acc] using a2
                · simpa using a4
                · simpa using a5
        | cond =>
            rw [pass2PopsAux, if_pos hind, hkind] at hok
            simp only at hok
            obtain ⟨a1, a2, a3, a4, a5⟩ := ih _ s2' (by simpa using hpc) hok
            rw [pass1Pops, if_pos hind, hkind]
            simp only at a1 a2 a4 a5 ⊢
            refine ⟨by simpa using a1, by simpa using a2, a3, by simpa using a4,
              by simpa using a5⟩
      · rw [pass2PopsAux, if_neg hind] at hok
        cases hok
        rw [pass1Pops, if_neg hind]
        exact ⟨rfl, rfl, hpc, rfl, rfl⟩

@[simp] theorem jaddI_jaddI (p : JInt) (a b : Int) :
    jaddI (jaddI p a) b = jaddI p (a + b) := by
  cases p <;> simp [jaddI, jadd] <;> ring

theorem get1_of_len {T : List String} (h : decide (T.length ≥ 2) = true) :
    ∃ m, T.get? 1 = some m := by
  have h2 : 1 < T.length := by simpa using of_decide_eq_true h
  exact ⟨T.get ⟨1, h2⟩, List.get?_eq_get h2⟩

set_option maxHeartbeats 2000000 in
theorem core_sync (env : Env) (o : Int) (s1 : P1State) (s2 : P2State) (l : Line) (s2' : P2State)
    (stkh : s2.blockStack = s1.blockStack)
    (ctrh : s2.bCounter = s1.blockCounter)
    (inch : s2.inCode = s1.inCode)
    (pc2h : s2.pc = s1.pc)
    (pcvh : s1.pc = some (o + (s2.code.length : Int)))
    (orgh : s1.origin = some o)
    (hok : pass2Core env s2 l = .ok s2')
    (hcolon : strStarts l.text ":" = true → (splitWs l.text).get? 1 = none)
    (hlok : s1.inCode = true → lineOK env.labels l = true)
    (hmono : mhas s1.labels (tokGet (splitWs l.text) 0) = true →
             mhas env.labels (tokGet (splitWs l.text) 0) = true) :
    Sync o (pass1Core s1 l) s2' := by
  unfold pass2Core at hok
  unfold pass1Core
  cases hA : strStarts l.text ":" with
  | true =>
      simp only [hA, Bool.true_or, if_true, if_pos rfl, hcolon hA] at hok ⊢
      cases hok
      exact ⟨stkh, ctrh, rfl, pc2h, pcvh, orgh⟩
  | false =>
      cases hB : strEnds l.text ":" with
      | true =>
          simp only [hA, hB, Bool.false_or, Bool.false_eq_true, if_false, if_true,
            if_pos rfl] at hok ⊢
          cases hok
          exact ⟨stkh, ctrh, rfl, pc2h, pcvh, orgh⟩
      | false =>
          cases hI : s1.inCode with
          | false =>
              have hI2 : s2.inCode = false := by rw [inch, hI]
              simp only [hA, hB, Bool.false_or, Bool.false_eq_true, if_false, hI, hI2,
                Bool.not_false, if_pos rfl, if_true] at hok ⊢
              cases hok
              exact ⟨stkh, ctrh, hI2, pc2h, pcvh, orgh⟩
          | true =>
              have hI2 : s2.inCode = true := by rw [inch, hI]
              have hl := hlok hI
              unfold lineOK at hl
              simp only [hA, hB, Bool.false_or, Bool.false_eq_true, if_false] at hl
              simp only [hA, hB, Bool.false_or, Bool.false_eq_true, if_false, hI, hI2,
                Bool.not_true, if_false] at hok ⊢
              by_cases hH : tokGet (splitWs l.text) 0 = "_"
              · simp only [if_pos hH] at hok ⊢
                cases hok
                exact ⟨by simp [stkh], by simp [ctrh], by simp [hI2, hI], by simp [pc2h],
                  by simp [pcvh, jaddI_acc], by simp [orgh]⟩
              · simp only [if_neg hH] at hok ⊢
                by_cases hE : tokGet (splitWs l.text) 0 = "="
                · simp only [if_pos hE] at hok ⊢
                  simp only [if_neg hH, if_pos hE] at hl
                  rw [Bool.and_eq_true] at hl
                  obtain ⟨m, hm⟩ := get1_of_len hl.1
                  have hpp : hasSubstr m "++" = true := by
                    have := hl.2
                    rwa [tokGet, hm, Option.getD_some] at this
                  rw [hm] at hok
                  simp only [hpp, if_true, if_pos rfl] at hok
                  cases hreg : parseReg (some (stripChars m ['[', ']', '+'])) with
                  | error e =>
                      rw [hreg] at hok
                      exact absurd hok (by simp)
                  | ok reg =>
                      rw [hreg] at hok
                      simp only at hok
                      cases hok
                      exact ⟨by simp [stkh], by simp [ctrh], by simp [hI2, hI], by simp [pc2h],
                        by simp [pcvh, jaddI_acc], by simp [orgh]⟩
                · simp only [if_neg hE] at hok ⊢
                  unfold pass2Rest at hok
                  cases hC : isCallLine (splitWs l.text) with
                  | true =>
                      simp only [hC, if_true, if_pos rfl] at hok ⊢
                      cases hreg : parseReg (some (stripChars (tokGet (splitWs l.text) 1)
                          ['[', ']', '-'])) with
                      | error e =>
                          rw [hreg] at hok
                          exact absurd hok (by simp)
                      | ok reg =>
                          rw [hreg] at hok
                          simp only at hok
                          cases hok
                          exact ⟨by simp [stkh], by simp [ctrh], by simp [hI2, hI], by simp [pc2h],
                            by simp [pcvh, jaddI_acc], by simp [orgh]⟩
                  | false =>
                      simp only [hC, Bool.false_eq_true, if_false] at hok ⊢
                      cases hD : (decide (tokGet (splitWs l.text) 0 = ".") ||
                          decide (tokGet (splitWs l.text) 0 = "..")) with
                      | true =>
                          simp only [hD, if_true, if_pos rfl] at hok ⊢
                          cases hfind : (emitTrace s2 ("\n; " ++ l.text)).blockStack.find?
                              (fun b => decide (b.kind = BKind.wh) || decide (b.kind = BKind.rg)) with
                          | none =>
                              rw [hfind] at hok
                              exact absurd hok (by simp)
                          | some b =>
                              rw [hfind] at hok
                              simp only at hok
                              cases hok
                              exact ⟨by simp [stkh], by simp [ctrh], by simp [hI2, hI],
                                by simp [pc2h], by simp [pcvh, jaddI_acc], by simp [orgh]⟩
                      | false =>
                          simp only [hD, Bool.false_eq_true, if_false] at hok ⊢
                          cases hF : (decide (tokGet (splitWs l.text) 0 = "&") ||
                              decide (tokGet (splitWs l.text) 0 = "?")) with
                          | true =>
                              simp only [hF, if_true, if_pos rfl] at hok ⊢
                              by_cases hR : isRangeLine (tokGet (splitWs l.text) 0)
                                  (splitWs l.text) = true
                              · simp only [hR, if_true, if_pos rfl] at hok ⊢
                                cases hr1 : parseReg ((splitWs l.text).get? 1) with
                                | error e => rw [hr1] at hok; exact absurd hok (by simp)
                                | ok r1 =>
                                    rw [hr1] at hok
                                    simp only at hok
                                    cases hr2 : parseReg ((splitWs l.text).get? 2) with
                                    | error e => rw [hr2] at hok; exact absurd hok (by simp)
                                    | ok r2 =>
                                        rw [hr2] at hok
                                        simp only at hok
                                        cases hr3 : parseReg ((splitWs l.text).get? 3) with
                                        | error e => rw [hr3] at hok; exact absurd hok (by simp)
                                        | ok r3 =>
                                            rw [hr3] at hok
                                            simp only at hok
                                            cases hok
                                            exact ⟨by simp [stkh, ctrh], by simp [ctrh],
                                              by simp [hI2, hI], by simp [pc2h],
                                              by simp [pcvh, jaddI_acc], by simp [orgh]⟩
                              · rw [Bool.not_eq_true] at hR
                                simp only [hR, Bool.false_eq_true, if_false] at hok ⊢
                                cases hr1 : parseReg ((splitWs l.text).get? 1) with
                                | error e => rw [hr1] at hok; exact absurd hok (by simp)
                                | ok rs1 =>
                                    rw [hr1] at hok
                                    simp only at hok
                                    cases hr2 : parseReg ((splitWs l.text).get? 3) with
                                    | error e => rw [hr2] at hok; exact absurd hok (by simp)
                                    | ok rs2 =>
                                        rw [hr2] at hok
                                        simp only at hok
                                        simp only [if_neg hH, if_neg hE, hC, Bool.false_eq_true,
                                          if_false, hD, hF, if_true, if_pos rfl, hR] at hl
                                        have hop4 : tokGet (splitWs l.text) 2 = "<" ∨
                                            tokGet (splitWs l.text) 2 = ">=" ∨
                                            tokGet (splitWs l.text) 2 = "==" ∨
                                            tokGet (splitWs l.text) 2 = "!=" := by
                                          simpa [opsBranch, List.contains] using hl
                                        rcases hop4 with hop | hop | hop | hop <;>
                                          simp +decide only [hop] at hok <;>
                                          cases hok <;>
                                          exact ⟨by simp [stkh, ctrh], by simp [ctrh],
                                            by simp [hI2, hI], by simp [pc2h],
                                            by simp [pcvh, jaddI_acc], by simp [orgh]⟩
                          | false =>
                              simp only [hF, Bool.false_eq_true, if_false] at hok ⊢
                              by_cases hS : strStarts (tokGet (splitWs l.text) 0) "[" = true
                              · simp only [hS, if_true, if_pos rfl] at hok ⊢
                                cases hsrc : parseReg ((splitWs l.text).get? 1) with
                                | error e => rw [hsrc] at hok; exact absurd hok (by simp)
                                | ok srcReg =>
                                    rw [hsrc] at hok
                                    simp only at hok
                                    by_cases hSS : strStarts (tokGet (splitWs l.text) 0) "[--" = true
                                    · simp only [hSS, if_true, if_pos rfl] at hok ⊢
                                      cases hdr : parseReg (some (stripChars
                                          (tokGet (splitWs l.text) 0) ['[', ']', '-'])) with
                                      | error e => rw [hdr] at hok; exact absurd hok (by simp)
                                      | ok reg =>
                                          rw [hdr] at hok
                                          simp only at hok
                                          cases hok
                                          exact ⟨by simp [stkh], by simp [ctrh], by simp [hI2, hI],
                                            by simp [pc2h], by simp [pcvh, jaddI_acc],
                                            by simp [orgh]⟩
                                    · rw [Bool.not_eq_true] at hSS
                                      simp only [hSS, Bool.false_eq_true, if_false] at hok ⊢
                                      cases hdr : parseReg (some (stripChars
                                          (tokGet (splitWs l.text) 0) ['[', ']'])) with
                                      | error e => rw [hdr] at hok; exact absurd hok (by simp)
                                      | ok reg =>
                                          rw [hdr] at hok
                                          simp only at hok
                                          cases hok
                                          exact ⟨by simp [stkh], by simp [ctrh], by simp [hI2, hI],
                                            by simp [pc2h], by simp [pcvh, jaddI_acc],
                                            by simp [orgh]⟩
                              · rw [Bool.not_eq_true] at hS
                                simp only [hS, Bool.false_eq_true, if_false] at hok ⊢
                                by_cases hG : isReg (tokGet (splitWs l.text) 0) = true
                                · simp only [hG, if_true, if_pos rfl] at hok ⊢
                                  cases hg : (splitWs l.text).get? 1 with
                                  | none =>
                                      rw [hg] at hok
                                      exact absurd hok (by simp)
                                  | some t1 =>
                                      rw [hg] at hok
                                      simp only at hok ⊢
                                      by_cases hT1 : strStarts t1 "[" = true
                                      · simp only [hT1, if_true, if_pos rfl] at hok ⊢
                                        cases hPP : hasSubstr t1 "++" with
                                        | true =>
                                            simp only [hPP, if_true, if_pos rfl] at hok ⊢
                                            cases hdr : parseReg (some (stripChars t1
                                                ['[', ']', '+'])) with
                                            | error e => rw [hdr] at hok; exact absurd hok (by simp)
                                            | ok reg =>
                                                rw [hdr] at hok
                                                simp only at hok
                                                cases hok
                                                exact ⟨by simp [stkh], by simp [ctrh],
                                                  by simp [hI2, hI], by simp [pc2h],
                                                  by simp [pcvh, jaddI_acc], by simp [orgh]⟩
                                        | false =>
                                            simp only [hPP, Bool.false_eq_true, if_false] at hok ⊢
                                            cases hdr : parseReg (some (stripChars t1
                                                ['[', ']'])) with
                                            | error e => rw [hdr] at hok; exact absurd hok (by simp)
                                            | ok reg =>
                                                rw [hdr] at hok
                                                simp only at hok
                                                cases hok
                                                exact ⟨by simp [stkh], by simp [ctrh],
                                                  by simp [hI2, hI], by simp [pc2h],
                                                  by simp [pcvh, jaddI_acc], by simp [orgh]⟩
                                      · rw [Bool.not_eq_true] at hT1
                                        simp only [hT1, Bool.false_eq_true, if_false] at hok ⊢
                                        by_cases hAr : (decide ((splitWs l.text).length > 2) &&
                                            opsArith.contains (tokGet (splitWs l.text) 2)) = true
                                        · simp only [hAr, if_true, if_pos rfl] at hok ⊢
                                          by_cases hRt1 : isReg t1 = true
                                          · simp only [hRt1, if_true, if_pos rfl] at hok
                                            by_cases hR3 : isReg (tokGet (splitWs l.text) 3) = true
                                            · simp only [hR3, if_true, if_pos rfl] at hok
                                              cases hok
                                              exact ⟨by simp [stkh], by simp [ctrh],
                                                by simp [hI2, hI], by simp [pc2h],
                                                by simp [pcvh, jaddI_acc], by simp [orgh]⟩
                                            · rw [Bool.not_eq_true] at hR3
                                              simp only [hR3, Bool.false_eq_true, if_false] at hok
                                              cases hok
                                              exact ⟨by simp [stkh], by simp [ctrh],
                                                by simp [hI2, hI], by simp [pc2h],
                                                by simp [pcvh, jaddI_acc], by simp [orgh]⟩
                                          · rw [Bool.not_eq_true] at hRt1
                                            simp only [hRt1, Bool.false_eq_true, if_false] at hok
                                            cases hok
                                            exact ⟨by simp [stkh], by simp [ctrh],
                                              by simp [hI2, hI], by simp [pc2h],
                                              by simp [pcvh, jaddI_acc, emitLoadConst_code_length],
                                              by simp [orgh]⟩
                                        · rw [Bool.not_eq_true] at hAr
                                          simp only [hAr, Bool.false_eq_true, if_false] at hok ⊢
                                          by_cases hRt1 : isReg t1 = true
                                          · simp only [hRt1, if_true, if_pos rfl] at hok
                                            cases hok
                                            exact ⟨by simp [stkh], by simp [ctrh],
                                              by simp [hI2, hI], by simp [pc2h],
                                              by simp [pcvh, jaddI_acc], by simp [orgh]⟩
                                          · rw [Bool.not_eq_true] at hRt1
                                            simp only [hRt1, Bool.false_eq_true, if_false] at hok
                                            cases hok
                                            exact ⟨by simp [stkh], by simp [ctrh],
                                              by simp [hI2, hI], by simp [pc2h],
                                              by simp [pcvh, jaddI_acc, emitLoadConst_code_length],
                                              by simp [orgh]⟩
                                · rw [Bool.not_eq_true] at hG
                                  simp only [hG, Bool.false_eq_true, if_false] at hok ⊢
                                  simp only [if_neg hH, if_neg hE, hC, Bool.false_eq_true,
                                    if_false, hD, hF, hS, hG] at hl
                                  cases hmi : matchesIdent (tokGet (splitWs l.text) 0) with
                                  | true =>
                                      cases hme : mhas env.labels (tokGet (splitWs l.text) 0) with
                                      | false => rw [hmi, hme] at hl; simp at hl
                                      | true =>
                                          simp only [hme, if_true, if_pos rfl] at hok
                                          simp only [hmi, Bool.or_true, if_true, if_pos rfl]
                                          cases hok
                                          exact ⟨by simp [stkh], by simp [ctrh], by simp [hI2, hI],
                                            by simp [pc2h], by simp [pcvh, jaddI_acc],
                                            by simp [orgh]⟩
                                  | false =>
                                      cases hme : mhas env.labels (tokGet (splitWs l.text) 0) with
                                      | true => rw [hmi, hme] at hl; simp at hl
                                      | false =>
                                          have h1f : mhas s1.labels (tokGet (splitWs l.text) 0) = false := by
                                            cases hcand : mhas s1.labels (tokGet (splitWs l.text) 0) with
                                            | false => rfl
                                            | true => rw [hmono hcand] at hme; cases hme
                                          simp only [hme, Bool.false_eq_true, if_false] at hok
                                          simp only [hmi, h1f, Bool.or_self, Bool.false_eq_true,
                                            if_false]
                                          cases hok
                                          exact ⟨stkh, ctrh, hI2.trans hI.symm, pc2h, pcvh, orgh⟩
theorem pass1Core_inCode (s : P1State) (l : Line) :
    (pass1Core s l).inCode = (s.inCode || strStarts l.text ":" || strEnds l.text ":") := by
  unfold pass1Core
  by_cases h1 : strStarts l.text ":"
  · simp only [if_pos h1]
    cases hg : (splitWs l.text).get? 1 <;> simp [h1]
  · rw [Bool.not_eq_true] at h1
    simp only [h1, Bool.false_eq_true, if_false, Bool.or_false]
    by_cases h2 : strEnds l.text ":"
    · simp [h1, h2]
    · rw [Bool.not_eq_true] at h2
      simp only [h2, Bool.false_eq_true, if_false, Bool.or_false]
      by_cases h3 : (!s.inCode) = true
      · rw [if_pos h3]
      · rw [if_neg h3]
        by_cases h4 : tokGet (splitWs l.text) 0 = "_"
        · rw [if_pos h4]
        · rw [if_neg h4]
          by_cases h5 : tokGet (splitWs l.text) 0 = "="
          · rw [if_pos h5]
          · rw [if_neg h5]
            by_cases h6 : isCallLine (splitWs l.text) = true
            · rw [if_pos h6]
            · rw [if_neg h6]
              by_cases h7 : (decide (tokGet (splitWs l.text) 0 = ".") ||
                  decide (tokGet (splitWs l.text) 0 = "..")) = true
              · rw [if_pos h7]
              · rw [if_neg h7]
                by_cases h8 : (decide (tokGet (splitWs l.text) 0 = "&") ||
                    decide (tokGet (splitWs l.text) 0 = "?")) = true
                · rw [if_pos h8]
                  by_cases h9 : isRangeLine (tokGet (splitWs l.text) 0) (splitWs l.text) = true
                  · rw [if_pos h9]
                  · rw [if_neg h9]
                · rw [if_neg h8]
                  by_cases h11 : strStarts (tokGet (splitWs l.text) 0) "[" = true
                  · rw [if_pos h11]
                  · rw [if_neg h11]
                    by_cases h12 : isReg (tokGet (splitWs l.text) 0) = true
                    · rw [if_pos h12]
                      cases (splitWs l.text).get? 1 with
                      | none => rfl
                      | some t1 =>
                          dsimp only
                          by_cases h13 : strStarts t1 "[" = true
                          · rw [if_pos h13]
                          · rw [if_neg h13]
                            by_cases h14 : (decide ((splitWs l.text).length > 2) &&
                                opsArith.contains (tokGet (splitWs l.text) 2)) = true
                            · rw [if_pos h14]
                            · rw [if_neg h14]
                    · rw [if_neg h12]
                      by_cases h15 : (mhas s.labels (tokGet (splitWs l.text) 0) ||
                          matchesIdent (tokGet (splitWs l.text) 0)) = true
                      · rw [if_pos h15]
                      · rw [if_neg h15]

theorem pass1Line_inCode (s : P1State) (l : Line) :
    (pass1Line s l).inCode = (s.inCode || strStarts l.text ":" || strEnds l.text ":") := by
  unfold pass1Line
  rw [pass1Core_inCode]

theorem linesOK_head {labels : SMap} {inC : Bool} {l : Line} {rest : List Line}
    (h : linesOK labels inC (l :: rest) = true) :
    (inC = true → lineOK labels l = true) ∧
      linesOK labels (inC || strStarts l.text ":" || strEnds l.text ":") rest = true := by
  rw [linesOK, Bool.and_eq_true] at h
  refine ⟨fun hi => ?_, h.2⟩
  have := h.1
  rw [hi] at this
  simpa using this

set_option maxHeartbeats 1000000 in
theorem go_sync (env : Env) (o : Int) :
    ∀ (L : List Line) (s1 : P1State) (s2 : P2State) (s2' : P2State),
      Sync o s1 s2 →
      (∀ k, mhas (pass1From s1 L).labels k = true → mhas env.labels k = true) →
      linesOK env.labels s1.inCode L = true →
      colonsOK L = true →
      pass2Go env s2 L = .ok s2' →
      Sync o (L.foldl pass1Line s1) s2' := by
  intro L
  induction L with
  | nil =>
      intro s1 s2 s2' hs _ _ _ hok
      cases hok
      exact hs
  | cons l rest ih =>
      intro s1 s2 s2' hs hm hlmain hcmain hok
      rw [pass2Go] at hok
      cases hstep : pass2Line env s2 l with
      | error e => rw [hstep] at hok; exact absurd hok (by simp)
      | ok s2m =>
          rw [hstep] at hok
          simp only at hok
          unfold pass2Line at hstep
          cases hpop : pass2PopsAux env l.indent s2.blockStack s2 with
          | error e => rw [hpop] at hstep; exact absurd hstep (by simp)
          | ok s2p =>
              rw [hpop] at hstep
              simp only at hstep
              have hpc0 : s2.pc = some (o + (s2.code.length : Int)) := hs.pc2.trans hs.pcv
              obtain ⟨b1, b2, b3, b4, b5⟩ :=
                pops_sync env o l.indent s2.blockStack s2 s2p hpc0 hpop
              rw [hs.stk, hs.pc2] at b1 b2
              obtain ⟨hcl, hcr⟩ := colonsOK_head hcmain
              obtain ⟨hll, hlr⟩ := linesOK_head hlmain
              have hsync1 : Sync o (pass1Line s1 l) s2m := by
                unfold pass1Line
                refine core_sync env o _ s2p l s2m b1 ?_ ?_ ?_ ?_ ?_ hstep hcl ?_ ?_
                · rw [b5, hs.ctr]
                · rw [b4, hs.inc]
                · exact b2
                · rw [← b2]; exact b3
                · exact hs.org
                · intro hic
                  exact hll hic
                · intro hmk
                  exact hm _ (pass1From_labels_mono _ _ hmk)
              have hnext : ∀ k, mhas (pass1From (pass1Line s1 l) rest).labels k = true →
                  mhas env.labels k = true := by
                intro k hk
                exact hm k (by rw [pass1From_cons]; exact hk)
              have hlrest : linesOK env.labels (pass1Line s1 l).inCode rest = true := by
                rw [pass1Line_inCode]
                exact hlr
              rw [List.foldl_cons]
              exact ih (pass1Line s1 l) s2m s2' hsync1 hnext hlrest hcr hok


theorem eof_sync (env : Env) (o : Int) :
    ∀ (stack : List Frame) (s2 : P2State) (s2' : P2State) (labels : SMap),
      s2.pc = some (o + (s2.code.length : Int)) →
      (∀ f ∈ stack, f.kind ≠ BKind.cond) →
      pass2EofAux env stack s2 = .ok s2' →
      (pass1EofAux stack s2.pc labels).1 = some (o + (s2'.code.length : Int)) := by
  intro stack
  induction stack with
  | nil =>
      intro s2 s2' labels hpc _ hok
      cases hok
      exact hpc
  | cons b rest ih =>
      intro s2 s2' labels hpc hnc hok
      cases hkind : b.kind with
      | cond => exact absurd hkind (hnc b (by simp))
      | wh =>
          rw [pass2EofAux, hkind] at hok
          simp only at hok
          have hrec := ih _ s2' (mset labels b.endLbl (jaddI s2.pc 4))
            (by simp [hpc, jaddI_acc]) (fun f hf => hnc f (List.mem_cons_of_mem _ hf)) hok
          rw [pass1EofAux, hkind]
          simpa [hpc, jaddI_acc] using hrec
      | rg =>
          rw [pass2EofAux, hkind] at hok
          simp only at hok
          cases hreg : parseReg (some b.reg) with
          | error e => rw [hreg] at hok; exact absurd hok (by simp)
          | ok reg =>
              rw [hreg] at hok
              simp only at hok
              have hrec := ih _ s2' (mset labels b.endLbl (jaddI s2.pc 8))
                (by simp [hpc, jaddI_acc]; ring) (fun f hf => hnc f (List.mem_cons_of_mem _ hf)) hok
              rw [pass1EofAux, hkind]
              simpa [hpc, jaddI_acc] using hrec

theorem colonsOK_cons {l : Line} {rest : List Line}
    (h1 : (!strStarts l.text ":" || decide ((splitWs l.text).length ≤ 1)) = true)
    (h2 : colonsOK rest = true) : colonsOK (l :: rest) = true := by
  unfold colonsOK at h2 ⊢
  rw [List.all_cons, h1, h2]
  rfl

/-- Composition of the line loop and the end-of-input loop of both
passes, starting from coupled states. -/
theorem run_sync (env : Env) (o : Int) (L : List Line) (s1 : P1State) (s2 : P2State)
    (s2G s2F : P2State)
    (hs : Sync o s1 s2)
    (hm : ∀ k, mhas (pass1From s1 L).labels k = true → mhas env.labels k = true)
    (hl : linesOK env.labels s1.inCode L = true)
    (hc : colonsOK L = true)
    (hif : ∀ f ∈ (L.foldl pass1Line s1).blockStack, f.kind ≠ BKind.cond)
    (hgo : pass2Go env s2 L = .ok s2G)
    (heof : pass2EofAux env s2G.blockStack { s2G with blockStack := [] } = .ok s2F) :
    (pass1From s1 L).pc = some (o + (s2F.code.length : Int)) ∧
      (pass1From s1 L).origin = some o := by
  have hsync := go_sync env o L s1 s2 s2G hs hm hl hc hgo
  constructor
  · have hpcg : ({ s2G with blockStack := ([] : List Frame) } : P2State).pc =
        some (o + (({ s2G with blockStack := ([] : List Frame) } : P2State).code.length : Int)) := by
      simp only
      exact hsync.pc2.trans hsync.pcv
    have hnc : ∀ f ∈ s2G.blockStack, f.kind ≠ BKind.cond := by
      intro f hf
      exact hif f (by rw [← hsync.stk]; exact hf)
    have he := eof_sync env o s2G.blockStack { s2G with blockStack := [] } s2F
      (L.foldl pass1Line s1).labels hpcg hnc heof
    have hstk := hsync.stk
    have hpc2 := hsync.pc2
    simp only at he
    rw [hstk, hpc2] at he
    exact he
  · show (pass1From s1 L).origin = some o
    unfold pass1From
    exact hsync.org

/-- The generic path: when the first line does not reset the origin,
both passes start in lock-step at origin 0. -/
theorem c1_pathB (L : List Line) (s2G s2F : P2State)
    (hcOK : colonsOK L = true)
    (hlin : linesOK (pass1Run L).labels false L = true)
    (hif : ∀ f ∈ (pass1Main L).blockStack, f.kind ≠ BKind.cond)
    (hgo : pass2Go ⟨(pass1Run L).labels, (pass1Run L).constants⟩
      (initP2 (pass1Run L).origin) L = .ok s2G)
    (heof : pass2EofAux ⟨(pass1Run L).labels, (pass1Run L).constants⟩ s2G.blockStack
      { s2G with blockStack := [] } = .ok s2F) :
    (pass1Run L).pc = jadd (pass1Run L).origin (some ((s2F.code.length : Nat) : Int)) := by
  have horig : (pass1Run L).origin = some 0 := by
    rw [pass1Run_eq_from]
    exact (pass1From_origin_pres initP1 L hcOK).trans rfl
  have hs0 : Sync 0 initP1 (initP2 (pass1Run L).origin) := by
    refine ⟨rfl, rfl, rfl, ?_, ?_, rfl⟩
    · show (pass1Run L).origin = initP1.pc
      rw [horig]
      rfl
    · show initP1.pc = some (0 + ((0 : Nat) : Int))
      simp [initP1]
  obtain ⟨hpc, _⟩ := run_sync ⟨(pass1Run L).labels, (pass1Run L).constants⟩ 0 L initP1
    (initP2 (pass1Run L).origin) s2G s2F hs0
    (fun k hk => by rw [pass1Run_eq_from]; exact hk) hlin hcOK hif hgo heof
  rw [horig, pass1Run_eq_from]
  rw [hpc]
  simp [jadd]

/-- The two runs of the whole pipeline agree on sizes, over the line
list. -/
theorem c1_main (L : List Line) (s2F : P2State)
    (hfull : pass2Full ⟨(pass1Run L).labels, (pass1Run L).constants⟩ (pass1Run L).origin L =
      .ok s2F)
    (hcol : colonsOK (L.drop 1) = true)
    (hho : headOriginOK L = true)
    (hlin : linesOK (pass1Run L).labels false L = true)
    (hif : ∀ f ∈ (pass1Main L).blockStack, f.kind ≠ BKind.cond) :
    (pass1Run L).pc = jadd (pass1Run L).origin (some ((s2F.code.length : Nat) : Int)) := by
  unfold pass2Full at hfull
  cases hgo : pass2Go ⟨(pass1Run L).labels, (pass1Run L).constants⟩
      (initP2 (pass1Run L).origin) L with
  | error e => rw [hgo] at hfull; exact absurd hfull (by simp)
  | ok s2G =>
      rw [hgo] at hfull
      simp only at hfull
      cases L with
      | nil =>
          cases hgo
          cases hfull
          decide
      | cons l rest =>
          by_cases hA : strStarts l.text ":" = true
          · cases hg : (splitWs l.text).get? 1 with
            | none =>
                have hcOK : colonsOK (l :: rest) = true := by
                  refine colonsOK_cons ?_ hcol
                  rw [show decide ((splitWs l.text).length ≤ 1) = true from
                    decide_eq_true (List.get?_eq_none.mp hg)]
                  simp
                exact c1_pathB (l :: rest) s2G s2F hcOK hlin hif hgo hfull
            | some v =>
                have hho2 : (parseValue ⟨[], []⟩ (some v)).isSome = true := by
                  unfold headOriginOK at hho
                  dsimp only at hho
                  rw [hA] at hho
                  simp only [Bool.not_true, Bool.false_or] at hho
                  rw [hg] at hho
                  exact hho
                obtain ⟨o, ho⟩ := Option.isSome_iff_exists.mp hho2
                have ho' : parseValue ⟨initP1.constants, initP1.labels⟩ (some v) = some o := ho
                have hs1h : pass1Line initP1 l =
                    ⟨some o, true, [], [(":", some o)], [], some o, 0⟩ := by
                  have h0 : pass1Line initP1 l = pass1Core initP1 l := rfl
                  rw [h0]
                  unfold pass1Core
                  simp only [if_pos hA]
                  rw [hg]
                  simp only [ho']
                  rfl
                have horig : (pass1Run (l :: rest)).origin = some o := by
                  rw [pass1Run_eq_from, pass1From_cons,
                    pass1From_origin_pres _ rest hcol, hs1h]
                rw [pass2Go] at hgo
                cases hstep : pass2Line ⟨(pass1Run (l :: rest)).labels,
                    (pass1Run (l :: rest)).constants⟩
                    (initP2 (pass1Run (l :: rest)).origin) l with
                | error e => rw [hstep] at hgo; exact absurd hgo (by simp)
                | ok s2h =>
                    rw [hstep] at hgo
                    simp only at hgo
                    unfold pass2Line at hstep
                    rw [show pass2PopsAux ⟨(pass1Run (l :: rest)).labels,
                        (pass1Run (l :: rest)).constants⟩ l.indent
                        (initP2 (pass1Run (l :: rest)).origin).blockStack
                        (initP2 (pass1Run (l :: rest)).origin) =
                      .ok { initP2 (pass1Run (l :: rest)).origin with blockStack := [] }
                      from rfl] at hstep
                    simp only at hstep
                    unfold pass2Core at hstep
                    simp only [hA, Bool.true_or, if_true, if_pos rfl] at hstep
                    cases hstep
                    have hsH : Sync o (pass1Line initP1 l)
                        (emitTrace { initP2 (pass1Run (l :: rest)).origin with
                            inCode := true, blockStack := [] }
                          ("\n; " ++ l.text ++ " (Origin: 0x" ++
                            jhex ({ initP2 (pass1Run (l :: rest)).origin with
                              inCode := true, blockStack := [] } : P2State).pc ++ ")")) := by
                      rw [hs1h]
                      refine ⟨by simp, by simp [initP2], by simp, ?_, by simp [initP2], rfl⟩
                      · show (initP2 (pass1Run (l :: rest)).origin).pc = some o
                        rw [show (initP2 (pass1Run (l :: rest)).origin).pc =
                          (pass1Run (l :: rest)).origin from rfl, horig]
                    obtain ⟨hpc, _⟩ := run_sync ⟨(pass1Run (l :: rest)).labels,
                        (pass1Run (l :: rest)).constants⟩ o rest (pass1Line initP1 l) _
                      s2G s2F hsH
                      (fun k hk => by rw [pass1Run_eq_from, pass1From_cons]; exact hk)
                      (by rw [pass1Line_inCode]; exact (linesOK_head hlin).2)
                      hcol hif hgo hfull
                    rw [horig, pass1Run_eq_from, pass1From_cons, hpc]
                    simp [jadd]
          · have hcOK : colonsOK (l :: rest) = true := by
              refine colonsOK_cons ?_ hcol
              rw [Bool.not_eq_true] at hA
              rw [hA]
              rfl
            exact c1_pathB (l :: rest) s2G s2F hcOK hlin hif hgo hfull

/-- C1 (amended): two-pass size consistency. When compilation succeeds
and every effective line is consistently handled -- each non-head bare
token either names a label recorded by pass 1 or is inert in both
passes, conditional openers use one of the four generated comparison
operators, a valued `:` line appears only as the first effective line
and resolves to a number, and no `if` block is still open at end of
input -- pass 1's final location counter equals the origin plus the
number of bytes pass 2 emitted. -/
theorem c1_size_consistency (src : String)
    (hok : (pass2Of src).isOk = true)
    (hcol : colonsOK ((effectiveLines src).drop 1) = true)
    (hho : headOriginOK (effectiveLines src) = true)
    (hlin : linesOK (pass1Run (effectiveLines src)).labels false (effectiveLines src) = true)
    (hif : ∀ f ∈ (pass1Main (effectiveLines src)).blockStack, f.kind ≠ BKind.cond) :
    (pass1Run (effectiveLines src)).pc =
      jadd (pass1Run (effectiveLines src)).origin
        (some ((p2codeLen (pass2Of src) : Nat) : Int)) := by
  cases h2 : pass2Of src with
  | error e =>
      rw [h2] at hok
      exact absurd hok (by simp [Except.isOk, Except.toBool])
  | ok s2F =>
      have hfull : pass2Full ⟨(pass1Run (effectiveLines src)).labels,
          (pass1Run (effectiveLines src)).constants⟩
          (pass1Run (effectiveLines src)).origin (effectiveLines src) = .ok s2F := h2
      exact c1_main (effectiveLines src) s2F hfull hcol hho hlin hif

theorem c1_size_consistency_witness :
    (pass2Of ": 0\n& x1 < x2\n  _\n_").isOk = true ∧
      (pass1Run (effectiveLines ": 0\n& x1 < x2\n  _\n_")).pc =
        jadd (pass1Run (effectiveLines ": 0\n& x1 < x2\n  _\n_")).origin
          (some ((p2codeLen (pass2Of ": 0\n& x1 < x2\n  _\n_") : Nat) : Int)) :=
  ⟨by decide, c1_size_consistency ": 0\n& x1 < x2\n  _\n_"
    (by decide) (by decide) (by decide) (by decide) (by decide)⟩
end MSA
